import Mathlib

/-!
Verification of the inventory-ledger core of the `inventory-app` repository.

The embedding models the MongoDB document store as two Lean lists (items and
stock movements) plus fresh-id counters, and translates the TypeScript request
handlers (`backend/api/sales.ts`, the TS half of `backend/api/returns`, the TS
items router with its `/:id/adjust` route, and `backend/api/movements`) into
pure state-passing functions.  `findOneAndUpdate` becomes "find the first
matching document and replace it in place"; `$inc` becomes addition on the
`quantity` field; `StockMovement.create` appends a document carrying the next
fresh movement id; `findByIdAndDelete` removes the document with that id.
Asynchronous awaits inside one handler are sequential (the handlers never fan
out), so a handler is a function on the store; the only place where the
two-phase read-then-write structure of a handler is observable (the adjust and
item-update routes) is modelled by exposing the read and the write as separate
functions that the handler composes.
-/

/-- An `Item` document (`backend/models/item`): identity, owner, natural key
`sku`, and the mutable `quantity`.  Timestamps are not modelled. -/
structure Item where
  id : Nat
  userId : Nat
  sku : String
  name : String
  quantity : Int
  lowStockThreshold : Int
  supplierName : Option String
  status : String
deriving Repr, DecidableEq

/-- The five movement kinds of the `StockMovement` schema enum.
`ret` stands for the schema's `return` kind. -/
inductive MovementType
  | sale
  | ret
  | adjustment
  | purchase
  | initial
deriving Repr, DecidableEq

/-- A `StockMovement` document (`backend/models/stockMovement`): immutable
ledger row with owner, item reference, kind, signed `delta` and metadata.
`createdAt` is a Nat timestamp. -/
structure StockMovement where
  id : Nat
  userId : Nat
  itemId : Nat
  type : MovementType
  delta : Int
  customerName : Option String
  reason : Option String
  createdAt : Nat
deriving Repr, DecidableEq

/-- The document store: the two collections, fresh-id counters for the `_id`s
Mongo would generate, and the current time used for `createdAt`. -/
structure Store where
  items : List Item
  movements : List StockMovement
  nextItemId : Nat
  nextMovementId : Nat
  now : Nat
deriving Repr, DecidableEq

/-- Replace the first element satisfying `p` by its image under `f`
(the single-document update of `findOneAndUpdate`). -/
def updateFirstItem (p : Item → Bool) (f : Item → Item) : List Item → List Item
  | [] => []
  | it :: rest => if p it then f it :: rest else it :: updateFirstItem p f rest

/-- `Item.findOneAndUpdate(filter, update, { new: true })`: one atomic
conditional step.  Returns the post-update document and the new store, or
`none` with the store unchanged when no document matches the filter. -/
def findOneAndUpdateItem (st : Store) (p : Item → Bool) (f : Item → Item) :
    Option Item × Store :=
  match st.items.find? p with
  | none => (none, st)
  | some it => (some (f it), { st with items := updateFirstItem p f st.items })

/-- The sale-line mutation of `sales.ts`:
`Item.findOneAndUpdate({ sku, userId, quantity: { $gte: q } },
{ $inc: { quantity: -q } }, { new: true })`.
The filter carries the sufficiency condition `q ≤ quantity`. -/
def saleLineUpdate (st : Store) (u : Nat) (sku : String) (q : Int) :
    Option Item × Store :=
  findOneAndUpdateItem st
    (fun it => it.sku == sku && it.userId == u && decide (q ≤ it.quantity))
    (fun it => { it with quantity := it.quantity - q })

/-- The return-line mutation of the TS return handler:
`Item.findOneAndUpdate({ sku, userId }, { $inc: { quantity: q } },
{ new: true })` — no sufficiency condition on increases. -/
def returnLineUpdate (st : Store) (u : Nat) (sku : String) (q : Int) :
    Option Item × Store :=
  findOneAndUpdateItem st
    (fun it => it.sku == sku && it.userId == u)
    (fun it => { it with quantity := it.quantity + q })

/-- `Item.findOneAndUpdate({ _id: iid, userId }, { $inc: { quantity: d } },
{ new: true })` — used by the rollback loops and by the TS
return-from-movement handler. -/
def incItemById (st : Store) (u : Nat) (iid : Nat) (d : Int) :
    Option Item × Store :=
  findOneAndUpdateItem st
    (fun it => it.id == iid && it.userId == u)
    (fun it => { it with quantity := it.quantity + d })

/-- `StockMovement.create({...})`: append one immutable row with a fresh id
and the current timestamp; return the created document. -/
def createMovement (st : Store) (itemId userId : Nat) (type : MovementType)
    (delta : Int) (customerName reason : Option String) :
    StockMovement × Store :=
  let m : StockMovement :=
    { id := st.nextMovementId, userId := userId, itemId := itemId,
      type := type, delta := delta, customerName := customerName,
      reason := reason, createdAt := st.now }
  (m, { st with movements := st.movements ++ [m],
                nextMovementId := st.nextMovementId + 1 })

/-- `StockMovement.findByIdAndDelete(mid)`: remove the document with `_id =
mid` (`_id` is unique, so filtering is the single-document delete). -/
def deleteMovementById (st : Store) (mid : Nat) : Store :=
  { st with movements := st.movements.filter (fun m => m.id != mid) }

/-- One line of a sale request body: `{ sku, quantity }`. -/
structure SaleLine where
  sku : String
  quantity : Int
deriving Repr, DecidableEq

/-- One line of a return request body: `{ sku, quantity, reason? }`. -/
structure ReturnLine where
  sku : String
  quantity : Int
  reason : Option String
deriving Repr, DecidableEq

/-- One entry of the handlers' `processedItems` array:
`{ itemId, quantity, movementId }`. -/
structure Processed where
  itemId : Nat
  quantity : Int
  movementId : Nat
deriving Repr, DecidableEq

/-- The rollback loop of `sales.ts` (`for (const processed of
processedItems)`): for each entry, in the array's order, re-add the sold
quantity with an unconditional `$inc` and delete the created movement.  The
second component records the entries in the order their compensations were
issued. -/
def rollbackSale (u : Nat) : List Processed → Store → Store × List Processed
  | [], st => (st, [])
  | p :: rest, st =>
      let st1 := (incItemById st u p.itemId p.quantity).2
      let st2 := deleteMovementById st1 p.movementId
      let r := rollbackSale u rest st2
      (r.1, p :: r.2)

/-- Error message thrown by a failed sale line. -/
def saleFailMsg (sku : String) : String :=
  "Item with SKU " ++ sku ++ " not found or insufficient stock"

/-- The line loop of the TS sale handler: conditional atomic decrement per
line; on the first non-matching line, roll back all processed lines and fail
with the message naming that line's SKU; on success record a `sale` movement
with `delta = -quantity` and push onto `processedItems`. -/
def saleLoop (u : Nat) (customerName : Option String) :
    List SaleLine → Store → List Processed →
    Store × List Processed × Except String Unit
  | [], st, _ => (st, [], Except.ok ())
  | l :: rest, st, processed =>
    match saleLineUpdate st u l.sku l.quantity with
    | (none, st1) =>
        let r := rollbackSale u processed st1
        (r.1, r.2, Except.error (saleFailMsg l.sku))
    | (some updated, st1) =>
        let cm := createMovement st1 updated.id u MovementType.sale
          (-l.quantity) customerName none
        saleLoop u customerName rest cm.2
          (processed ++ [⟨updated.id, l.quantity, cm.1.id⟩])

/-- `POST /api/sales` (TS): reject an empty batch, else run the line loop.
Returns the final store, the compensation trace (empty unless a line failed),
and the request outcome. -/
def recordSale (st : Store) (u : Nat) (customerName : Option String)
    (lines : List SaleLine) : Store × List Processed × Except String Unit :=
  if lines.isEmpty then (st, [], Except.error "Invalid sales data")
  else saleLoop u customerName lines st []

/-- The rollback loop of the TS return handler: same forward walk over
`processedItems`, subtracting the returned quantity and deleting the created
movement. -/
def rollbackReturn (u : Nat) : List Processed → Store → Store × List Processed
  | [], st => (st, [])
  | p :: rest, st =>
      let st1 := (incItemById st u p.itemId (-p.quantity)).2
      let st2 := deleteMovementById st1 p.movementId
      let r := rollbackReturn u rest st2
      (r.1, p :: r.2)

/-- Error message thrown by a failed return line. -/
def returnFailMsg (sku : String) : String :=
  "Item with SKU " ++ sku ++ " not found"

/-- The line loop of the TS return handler: unconditional atomic increment per
line; on a non-matching line, roll back and fail naming the SKU; on success
record a `return` movement with `delta = quantity` and the line's reason. -/
def returnLoop (u : Nat) :
    List ReturnLine → Store → List Processed →
    Store × List Processed × Except String Unit
  | [], st, _ => (st, [], Except.ok ())
  | l :: rest, st, processed =>
    match returnLineUpdate st u l.sku l.quantity with
    | (none, st1) =>
        let r := rollbackReturn u processed st1
        (r.1, r.2, Except.error (returnFailMsg l.sku))
    | (some updated, st1) =>
        let cm := createMovement st1 updated.id u MovementType.ret
          l.quantity none l.reason
        returnLoop u rest cm.2
          (processed ++ [⟨updated.id, l.quantity, cm.1.id⟩])

/-- `POST /api/returns` (TS). -/
def recordReturn (st : Store) (u : Nat) (lines : List ReturnLine) :
    Store × List Processed × Except String Unit :=
  if lines.isEmpty then (st, [], Except.error "Invalid returns data")
  else returnLoop u lines st []

/-- The auto-generated reason of the return-from-movement handler,
`` `Return of sale from ${new Date(originalMovement.createdAt).toLocaleDateString()}` ``.
Date formatting is abstracted to the decimal rendering of the timestamp. -/
def autoReturnReason (createdAt : Nat) : String :=
  "Return of sale from " ++ toString createdAt

/-- `POST /api/returns/from-movement/:movementId` (TS): look up the movement
by id and owner; reject when missing or when its type is not `sale`; then one
atomic `$inc` of `-delta` on the item by id and owner; then record a `return`
movement inheriting `customerName`, with the caller's reason or the
auto-generated default. -/
def reverseSaleMovement (st : Store) (u : Nat) (mid : Nat)
    (reason : Option String) : Store × Except String Unit :=
  match st.movements.find? (fun m => m.id == mid && m.userId == u) with
  | none => (st, Except.error "Original movement not found")
  | some orig =>
    if orig.type ≠ MovementType.sale then
      (st, Except.error "Only sale transactions can be returned")
    else
      let returnQuantity := -orig.delta
      match incItemById st u orig.itemId returnQuantity with
      | (none, st1) => (st1, Except.error "Associated item not found")
      | (some item, st1) =>
        let cm := createMovement st1 item.id u MovementType.ret returnQuantity
          orig.customerName (some (reason.getD (autoReturnReason orig.createdAt)))
        (cm.2, Except.ok ())

/-- The movement-type strings accepted by the adjust route
(`allowedTypes` in the items router). -/
def strToType (s : String) : Option MovementType :=
  if s = "sale" then some MovementType.sale
  else if s = "return" then some MovementType.ret
  else if s = "adjustment" then some MovementType.adjustment
  else if s = "purchase" then some MovementType.purchase
  else if s = "initial" then some MovementType.initial
  else none

/-- The adjust route's type inference: `let movementType = 'adjustment';
if (allowedTypes.includes(type)) movementType = type;
else if (delta > 0) movementType = 'purchase';` —
`allowedTypes.includes(undefined)` is false. -/
def movementTypeFor (type' : Option String) (delta : Int) : MovementType :=
  let fallback := if 0 < delta then MovementType.purchase
    else MovementType.adjustment
  match type' with
  | none => fallback
  | some s =>
    match strToType s with
    | some t => t
    | none => fallback

/-- The read phase of `POST /api/items/:id/adjust`:
`Item.findOne({ _id: id, userId })` — a plain read, not an update. -/
def adjustRead (st : Store) (u : Nat) (iid : Nat) : Option Item :=
  st.items.find? (fun it => it.id == iid && it.userId == u)

/-- The write phase of the adjust route: `item.quantity += delta; await
item.save()` — Mongoose `save` writes the in-memory document back
unconditionally, so the stored quantity becomes the snapshot's quantity plus
`delta`, whatever the stored quantity is at write time. -/
def adjustWrite (st : Store) (snapshot : Item) (delta : Int) : Store :=
  let written := { snapshot with quantity := snapshot.quantity + delta }
  let newItems :=
    updateFirstItem (fun it => it.id == snapshot.id) (fun _ => written) st.items
  { st with items := newItems }

/-- `POST /api/items/:id/adjust` (TS items router): read the item, add the
delta via save, infer the movement type, record the movement with the caller's
delta and reason.  The handler composes the read and write phases with no
intervening action. -/
def adjustQuantity (st : Store) (u : Nat) (iid : Nat) (delta : Int)
    (reason : String) (type' : Option String) :
    Store × Except String StockMovement :=
  match adjustRead st u iid with
  | none => (st, Except.error ("Item with id " ++ toString iid ++ " not found"))
  | some item =>
    let st1 := adjustWrite st item delta
    let cm := createMovement st1 item.id u (movementTypeFor type' delta) delta
      none (some reason)
    (cm.2, Except.ok cm.1)

/-- `POST /api/items` (TS items router): save the new item (the SKU comes from
the external `generateUniqueSku` service and is passed in), then record one
`initial` movement with `delta = result.quantity` and reason
`'Initial stock'`. -/
def createItem (st : Store) (u : Nat) (name : String) (quantity : Int)
    (lowStockThreshold : Int) (supplierName : Option String) (sku : String) :
    Store × Nat :=
  let it : Item :=
    { id := st.nextItemId, userId := u, sku := sku, name := name,
      quantity := quantity, lowStockThreshold := lowStockThreshold,
      supplierName := supplierName, status := "active" }
  let st1 := { st with items := st.items ++ [it],
                       nextItemId := st.nextItemId + 1 }
  let cm := createMovement st1 it.id u MovementType.initial quantity none
    (some "Initial stock")
  (cm.2, it.id)

/-- `PUT /api/items/:id` (TS items router): read the item, then overwrite
`name`, `quantity`, `lowStockThreshold` and `supplierName` from the request
body and save — the stored quantity becomes the request's absolute value. -/
def updateItem (st : Store) (u : Nat) (iid : Nat) (name : String)
    (quantity : Int) (lowStockThreshold : Int) (supplierName : Option String) :
    Store × Except String Unit :=
  match st.items.find? (fun it => it.id == iid && it.userId == u) with
  | none => (st, Except.error "Item not found")
  | some item =>
    let updated := { item with
      name := name, quantity := quantity,
      lowStockThreshold := lowStockThreshold, supplierName := supplierName }
    let newItems :=
      updateFirstItem (fun it => it.id == item.id) (fun _ => updated) st.items
    ({ st with items := newItems }, Except.ok ())

/-- The running-balance projection of `GET /api/movements/item/:itemId`
(`movements.map` over the newest-first page, threading `runningQuantity`):
each row is annotated with the anchor before that row's delta is subtracted;
the final anchor is returned as `continuationQuantity`. -/
def runningAnnotate : List StockMovement → Int →
    List (StockMovement × Int) × Int
  | [], q => ([], q)
  | m :: rest, q =>
      let r := runningAnnotate rest (q - m.delta)
      ((m, q) :: r.1, r.2)

/-- The quantity of the item with id `iid`, when it exists. -/
def itemQuantity (st : Store) (iid : Nat) : Option Int :=
  (st.items.find? (fun it => it.id == iid)).map (fun it => it.quantity)

/-! ### Toolkit: effects of the primitives on the item list -/

/-- Relative update keyed by item id: add `d` to the quantity of every item
whose id is `iid` (with unique ids, of the one such item).  Every atomic
`$inc` step's effect on the item list is an instance of this map. -/
def addToId (iid : Nat) (d : Int) (l : List Item) : List Item :=
  l.map (fun it =>
    if it.id = iid then { it with quantity := it.quantity + d } else it)

theorem addToId_map_id (iid : Nat) (d : Int) (l : List Item) :
    (addToId iid d l).map (fun it => it.id) = l.map (fun it => it.id) := by
  induction l with
  | nil => rfl
  | cons a l ih =>
      simp only [addToId, List.map_cons] at ih ⊢
      by_cases h : a.id = iid <;> simp [h, ih]

theorem addToId_cons (iid : Nat) (d : Int) (a : Item) (l : List Item) :
    addToId iid d (a :: l) =
      (if a.id = iid then { a with quantity := a.quantity + d } else a)
        :: addToId iid d l := rfl

theorem addToId_of_forall_ne (iid : Nat) (d : Int) (l : List Item)
    (h : ∀ it ∈ l, it.id ≠ iid) : addToId iid d l = l := by
  induction l with
  | nil => rfl
  | cons a l ih =>
      have ha : a.id ≠ iid := h a (by simp)
      rw [addToId_cons, if_neg ha,
        ih (fun it hit => h it (by simp [hit]))]

theorem addToId_comm (i j : Nat) (x y : Int) (l : List Item) :
    addToId i x (addToId j y l) = addToId j y (addToId i x l) := by
  simp only [addToId, List.map_map]
  apply List.map_congr_left
  intro it _
  simp only [Function.comp_apply]
  by_cases hj : it.id = j <;> by_cases hi : it.id = i
  · rw [if_pos hj,
      if_pos (show ({ it with quantity := it.quantity + y } : Item).id = i
        from hi),
      if_pos hi,
      if_pos (show ({ it with quantity := it.quantity + x } : Item).id = j
        from hj)]
    show ({ it with quantity := it.quantity + y + x } : Item) =
      { it with quantity := it.quantity + x + y }
    have hq : it.quantity + y + x = it.quantity + x + y := by omega
    rw [hq]
  · rw [if_pos hj,
      if_neg (show ¬({ it with quantity := it.quantity + y } : Item).id = i
        from hi),
      if_neg hi, if_pos hj]
  · rw [if_neg hj, if_pos hi,
      if_neg (show ¬({ it with quantity := it.quantity + x } : Item).id = j
        from hj)]
  · rw [if_neg hj, if_neg hi, if_neg hj]

theorem addToId_cancel (i : Nat) (x y : Int) (hxy : x + y = 0)
    (l : List Item) : addToId i y (addToId i x l) = l := by
  induction l with
  | nil => rfl
  | cons a l ih =>
      rw [addToId_cons]
      by_cases h : a.id = i
      · rw [if_pos h, addToId_cons,
          if_pos (show ({ a with quantity := a.quantity + x } : Item).id = i
            from h),
          ih]
        show ({ a with quantity := a.quantity + x + y } : Item) :: l = a :: l
        have hq : a.quantity + x + y = a.quantity := by omega
        rw [hq]
      · rw [if_neg h, addToId_cons, if_neg h, ih]

theorem addToId_quantity_mem (iid : Nat) (d : Int) (l : List Item)
    (it : Item) (h : it ∈ l) :
    (if it.id = iid then { it with quantity := it.quantity + d } else it)
      ∈ addToId iid d l :=
  List.mem_map_of_mem _ h

/-! ### Toolkit: `find?` and `updateFirstItem` -/

theorem updateFirstItem_of_find?_none (p : Item → Bool) (f : Item → Item)
    (l : List Item) (h : l.find? p = none) : updateFirstItem p f l = l := by
  induction l with
  | nil => rfl
  | cons a l ih =>
      cases hpa : p a with
      | true => rw [List.find?_cons_of_pos _ hpa] at h; exact absurd h (by simp)
      | false =>
          rw [List.find?_cons_of_neg _ (by simp [hpa])] at h
          simp [updateFirstItem, hpa, ih h]

theorem updateFirstItem_map_id (p : Item → Bool) (f : Item → Item)
    (l : List Item) (hf : ∀ it, (f it).id = it.id) :
    (updateFirstItem p f l).map (fun it => it.id) =
      l.map (fun it => it.id) := by
  induction l with
  | nil => rfl
  | cons a l ih =>
      by_cases h : p a <;> simp [updateFirstItem, h, hf, ih]

/-- With unique ids, updating the first match of a filter by a relative
quantity change is the id-keyed relative update at the matched document's id:
exactly the effect a Mongo conditional `$inc` has on the collection. -/
theorem updateFirstItem_eq_addToId (p : Item → Bool) (f : Item → Item)
    (d : Int) (l : List Item) (prev : Item)
    (hf : ∀ it, f it = { it with quantity := it.quantity + d })
    (h : l.find? p = some prev)
    (hnd : (l.map (fun it => it.id)).Nodup) :
    updateFirstItem p f l = addToId prev.id d l := by
  induction l with
  | nil => simp at h
  | cons a l ih =>
      simp only [List.map_cons, List.nodup_cons] at hnd
      cases hpa : p a with
      | true =>
          rw [List.find?_cons_of_pos _ hpa] at h
          have ha : a = prev := by injection h
          subst ha
          have hrest : addToId a.id d l = l := by
            apply addToId_of_forall_ne
            intro it hit hitid
            exact hnd.1 (hitid ▸ List.mem_map_of_mem _ hit)
          have h1 : updateFirstItem p f (a :: l) = f a :: l := by
            simp [updateFirstItem, hpa]
          rw [h1, addToId_cons, if_pos rfl, hrest, hf]
      | false =>
          rw [List.find?_cons_of_neg _ (by simp [hpa])] at h
          have hprev : prev ∈ l := List.mem_of_find?_eq_some h
          have hane : a.id ≠ prev.id := by
            intro hcontra
            exact hnd.1 (hcontra ▸ List.mem_map_of_mem _ hprev)
          have h1 : updateFirstItem p f (a :: l) =
              a :: updateFirstItem p f l := by
            simp [updateFirstItem, hpa]
          rw [h1, addToId_cons, if_neg hane, ih h hnd.2]

theorem mem_updateFirstItem (p : Item → Bool) (f : Item → Item)
    (l : List Item) (x : Item) (h : x ∈ updateFirstItem p f l) :
    x ∈ l ∨ ∃ y ∈ l, p y = true ∧ x = f y := by
  induction l with
  | nil => simp [updateFirstItem] at h
  | cons a l ih =>
      by_cases hpa : p a
      · simp only [updateFirstItem, if_pos hpa, List.mem_cons] at h
        rcases h with h | h
        · exact Or.inr ⟨a, by simp, hpa, h⟩
        · exact Or.inl (by simp [h])
      · simp only [updateFirstItem, if_neg hpa, List.mem_cons] at h
        rcases h with h | h
        · exact Or.inl (by simp [h])
        · rcases ih h with h' | ⟨y, hy, hpy, hxy⟩
          · exact Or.inl (by simp [h'])
          · exact Or.inr ⟨y, by simp [hy], hpy, hxy⟩

theorem updated_mem_updateFirstItem (p : Item → Bool) (f : Item → Item)
    (l : List Item) (prev : Item) (h : l.find? p = some prev) :
    f prev ∈ updateFirstItem p f l := by
  induction l with
  | nil => simp at h
  | cons a l ih =>
      cases hpa : p a with
      | true =>
          rw [List.find?_cons_of_pos _ hpa] at h
          have ha : a = prev := by injection h
          subst ha
          simp [updateFirstItem, hpa]
      | false =>
          rw [List.find?_cons_of_neg _ (by simp [hpa])] at h
          simp only [updateFirstItem, hpa, Bool.false_eq_true, if_false,
            List.mem_cons]
          exact Or.inr (ih h)

/-- With unique ids, any member with the sought id is what `find?` by id
returns. -/
theorem find?_by_id_of_mem (l : List Item) (x : Item) (iid : Nat)
    (hnd : (l.map (fun it => it.id)).Nodup) (hx : x ∈ l) (hid : x.id = iid) :
    l.find? (fun it => it.id == iid) = some x := by
  induction l with
  | nil => simp at hx
  | cons a l ih =>
      simp only [List.map_cons, List.nodup_cons] at hnd
      rcases List.mem_cons.mp hx with rfl | hx'
      · exact List.find?_cons_of_pos _ (by simp [hid])
      · have ha : a.id ≠ iid := by
          intro hcontra
          exact hnd.1 (by rw [hcontra, ← hid]; exact List.mem_map_of_mem _ hx')
        rw [List.find?_cons_of_neg _ (by simp [ha])]
        exact ih hnd.2 hx'

theorem exists_transport_addToId (l : List Item) (i a u : Nat) (x : Int)
    (h : ∃ it ∈ l, it.id = a ∧ it.userId = u) :
    ∃ it ∈ addToId i x l, it.id = a ∧ it.userId = u := by
  obtain ⟨it, hmem, hid, hu⟩ := h
  refine ⟨if it.id = i then { it with quantity := it.quantity + x } else it,
    List.mem_map_of_mem _ hmem, ?_, ?_⟩
  · by_cases hcase : it.id = i
    · rw [if_pos hcase]; exact hid
    · rw [if_neg hcase]; exact hid
  · by_cases hcase : it.id = i
    · rw [if_pos hcase]; exact hu
    · rw [if_neg hcase]; exact hu

/-- Semantic effect of `incItemById` when the filter matches, with unique
ids: the post-update document and the id-keyed relative bump of the list. -/
theorem incItemById_effect (st : Store) (u iid : Nat) (d : Int) (prev : Item)
    (h : st.items.find? (fun it => it.id == iid && it.userId == u) = some prev)
    (hnd : (st.items.map (fun it => it.id)).Nodup) :
    incItemById st u iid d =
      (some { prev with quantity := prev.quantity + d },
       { st with items := addToId iid d st.items }) := by
  have hid : prev.id = iid := by
    have := List.find?_some h
    simp only [Bool.and_eq_true, beq_iff_eq] at this
    exact this.1
  have heq := updateFirstItem_eq_addToId
    (fun it => it.id == iid && it.userId == u)
    (fun it => { it with quantity := it.quantity + d }) d st.items prev
    (fun it => rfl) h hnd
  simp only [incItemById, findOneAndUpdateItem, h, heq, hid]

/-- Semantic effect of a matching sale-line update: a conditional relative
decrement keyed by the matched document's id. -/
theorem saleLineUpdate_effect (st : Store) (u : Nat) (sku : String) (q : Int)
    (prev : Item)
    (h : st.items.find?
      (fun it => it.sku == sku && it.userId == u && decide (q ≤ it.quantity))
        = some prev)
    (hnd : (st.items.map (fun it => it.id)).Nodup) :
    saleLineUpdate st u sku q =
      (some { prev with quantity := prev.quantity - q },
       { st with items := addToId prev.id (-q) st.items }) := by
  have heq := updateFirstItem_eq_addToId
    (fun it => it.sku == sku && it.userId == u && decide (q ≤ it.quantity))
    (fun it => { it with quantity := it.quantity - q }) (-q) st.items prev
    (fun it => by simp [sub_eq_add_neg]) h hnd
  simp only [saleLineUpdate, findOneAndUpdateItem, h, heq]

/-- Semantic effect of a matching return-line update: an unconditional
relative increment keyed by the matched document's id. -/
theorem returnLineUpdate_effect (st : Store) (u : Nat) (sku : String)
    (q : Int) (prev : Item)
    (h : st.items.find? (fun it => it.sku == sku && it.userId == u)
        = some prev)
    (hnd : (st.items.map (fun it => it.id)).Nodup) :
    returnLineUpdate st u sku q =
      (some { prev with quantity := prev.quantity + q },
       { st with items := addToId prev.id q st.items }) := by
  have heq := updateFirstItem_eq_addToId
    (fun it => it.sku == sku && it.userId == u)
    (fun it => { it with quantity := it.quantity + q }) q st.items prev
    (fun it => rfl) h hnd
  simp only [returnLineUpdate, findOneAndUpdateItem, h, heq]

/-! ### Toolkit: accumulated effects of a batch and of its rollback -/

/-- The accumulated item-list effect of the processed entries, each
contributing the id-keyed relative change `d p`. -/
def addEffects (d : Processed → Int) (ps : List Processed)
    (l : List Item) : List Item :=
  ps.foldl (fun acc p => addToId p.itemId (d p) acc) l

theorem addEffects_nil (d : Processed → Int) (l : List Item) :
    addEffects d [] l = l := rfl

theorem addEffects_cons (d : Processed → Int) (p : Processed)
    (ps : List Processed) (l : List Item) :
    addEffects d (p :: ps) l = addEffects d ps (addToId p.itemId (d p) l) :=
  rfl

theorem addEffects_append_one (d : Processed → Int) (ps : List Processed)
    (p : Processed) (l : List Item) :
    addEffects d (ps ++ [p]) l =
      addToId p.itemId (d p) (addEffects d ps l) := by
  simp [addEffects, List.foldl_append]

theorem addToId_addEffects_comm (i : Nat) (x : Int) (d : Processed → Int)
    (ps : List Processed) (l : List Item) :
    addToId i x (addEffects d ps l) = addEffects d ps (addToId i x l) := by
  induction ps generalizing l with
  | nil => rfl
  | cons p ps ih =>
      rw [addEffects_cons, addEffects_cons, ih, addToId_comm]

theorem addEffects_map_id (d : Processed → Int) (ps : List Processed)
    (l : List Item) :
    (addEffects d ps l).map (fun it => it.id) = l.map (fun it => it.id) := by
  induction ps generalizing l with
  | nil => rfl
  | cons p ps ih => rw [addEffects_cons, ih, addToId_map_id]

theorem addEffects_cancel (d1 d2 : Processed → Int) (ps : List Processed)
    (h : ∀ p ∈ ps, d1 p + d2 p = 0) (l : List Item) :
    addEffects d2 ps (addEffects d1 ps l) = l := by
  induction ps generalizing l with
  | nil => rfl
  | cons p ps ih =>
      rw [addEffects_cons, addEffects_cons, addToId_addEffects_comm,
        addToId_cancel p.itemId (d1 p) (d2 p) (h p (by simp)),
        ih (fun p' hp' => h p' (by simp [hp']))]

theorem exists_transport_addEffects (d : Processed → Int)
    (ps : List Processed) (l : List Item) (a u : Nat)
    (h : ∃ it ∈ l, it.id = a ∧ it.userId = u) :
    ∃ it ∈ addEffects d ps l, it.id = a ∧ it.userId = u := by
  induction ps generalizing l with
  | nil => exact h
  | cons p ps ih =>
      rw [addEffects_cons]
      exact ih _ (exists_transport_addToId _ _ _ _ _ h)

/-- The accumulated movement-list effect of deleting, one by one, the
movements with the given ids. -/
def movErase (ids : List Nat) (ms : List StockMovement) :
    List StockMovement :=
  ids.foldl (fun acc mid => acc.filter (fun m => m.id != mid)) ms

theorem movErase_nil (ms : List StockMovement) : movErase [] ms = ms := rfl

theorem movErase_cons (mid : Nat) (ids : List Nat)
    (ms : List StockMovement) :
    movErase (mid :: ids) ms =
      movErase ids (ms.filter (fun m => m.id != mid)) := rfl

/-- Deleting exactly the appended movements' ids (all fresh, none colliding)
restores the original movement list. -/
theorem movErase_restores : ∀ (ms orig : List StockMovement),
    (∀ m ∈ orig, m.id ∉ ms.map (fun m => m.id)) →
    ((ms.map (fun m => m.id)).Nodup) →
    movErase (ms.map (fun m => m.id)) (orig ++ ms) = orig := by
  intro ms
  induction ms with
  | nil => intro orig _ _; simp [movErase_nil]
  | cons m ms ih =>
      intro orig horig hnd
      simp only [List.map_cons, List.nodup_cons] at hnd
      rw [List.map_cons, movErase_cons]
      have hfilter : (orig ++ m :: ms).filter (fun m' => m'.id != m.id) =
          orig ++ ms := by
        rw [List.filter_append]
        have h1 : orig.filter (fun m' => m'.id != m.id) = orig := by
          rw [List.filter_eq_self]
          intro a ha
          have := horig a ha
          simp only [List.map_cons, List.mem_cons] at this
          simp only [bne_iff_ne, ne_eq]
          exact fun hcontra => this (Or.inl hcontra)
        have h2 : (m :: ms).filter (fun m' => m'.id != m.id) = ms := by
          rw [List.filter_cons]
          simp only [bne_self_eq_false, Bool.false_eq_true, if_false]
          rw [List.filter_eq_self]
          intro a ha
          simp only [bne_iff_ne, ne_eq]
          exact fun hcontra => hnd.1 (hcontra ▸ List.mem_map_of_mem _ ha)
        rw [h1, h2]
      rw [hfilter]
      refine ih orig ?_ hnd.2
      intro m' hm' hcontra
      refine horig m' hm' ?_
      simp only [List.map_cons, List.mem_cons]
      exact Or.inr hcontra

theorem find?_append_left {α : Type} (p : α → Bool) (l l' : List α) (a : α)
    (h : l.find? p = some a) : (l ++ l').find? p = some a := by
  induction l with
  | nil => simp at h
  | cons b l ih =>
      cases hpb : p b with
      | true =>
          rw [List.find?_cons_of_pos _ hpb] at h
          rw [List.cons_append, List.find?_cons_of_pos _ hpb]
          exact h
      | false =>
          rw [List.find?_cons_of_neg _ (by simp [hpb])] at h
          rw [List.cons_append, List.find?_cons_of_neg _ (by simp [hpb])]
          exact ih h

/-! ### Rollback loop semantics -/

theorem rollbackSale_cons (u : Nat) (p : Processed) (ps : List Processed)
    (st : Store) :
    rollbackSale u (p :: ps) st =
      ((rollbackSale u ps (deleteMovementById
          (incItemById st u p.itemId p.quantity).2 p.movementId)).1,
       p :: (rollbackSale u ps (deleteMovementById
          (incItemById st u p.itemId p.quantity).2 p.movementId)).2) := rfl

theorem rollbackReturn_cons (u : Nat) (p : Processed) (ps : List Processed)
    (st : Store) :
    rollbackReturn u (p :: ps) st =
      ((rollbackReturn u ps (deleteMovementById
          (incItemById st u p.itemId (-p.quantity)).2 p.movementId)).1,
       p :: (rollbackReturn u ps (deleteMovementById
          (incItemById st u p.itemId (-p.quantity)).2 p.movementId)).2) := rfl

/-- The compensation loop walks `processedItems` in the array's own order:
its issue trace is exactly the processed list. -/
theorem rollbackSale_trace (u : Nat) :
    ∀ (ps : List Processed) (st : Store), (rollbackSale u ps st).2 = ps := by
  intro ps
  induction ps with
  | nil => intro st; rfl
  | cons p ps ih => intro st; rw [rollbackSale_cons, ih]

theorem rollbackReturn_trace (u : Nat) :
    ∀ (ps : List Processed) (st : Store), (rollbackReturn u ps st).2 = ps := by
  intro ps
  induction ps with
  | nil => intro st; rfl
  | cons p ps ih => intro st; rw [rollbackReturn_cons, ih]

/-- Full semantics of the sale rollback loop when every processed item is
still present (the sequential no-fault case): the item list receives the
re-adding increments, and exactly the created movements' ids are deleted. -/
theorem rollbackSale_effect (u : Nat) :
    ∀ (ps : List Processed) (st : Store),
    ((st.items.map (fun it => it.id)).Nodup) →
    (∀ p ∈ ps, ∃ it ∈ st.items, it.id = p.itemId ∧ it.userId = u) →
    (rollbackSale u ps st).1.items =
        addEffects (fun p => p.quantity) ps st.items ∧
    (rollbackSale u ps st).1.movements =
        movErase (ps.map (fun p => p.movementId)) st.movements := by
  intro ps
  induction ps with
  | nil => intro st _ _; exact ⟨rfl, rfl⟩
  | cons p ps ih =>
      intro st hnd hex
      have hfind : (st.items.find?
          (fun it => it.id == p.itemId && it.userId == u)).isSome := by
        rw [List.find?_isSome]
        obtain ⟨it, hmem, hid, hu⟩ := hex p (by simp)
        exact ⟨it, hmem, by simp [hid, hu]⟩
      obtain ⟨prev, hprev⟩ := Option.isSome_iff_exists.mp hfind
      have heff := incItemById_effect st u p.itemId p.quantity prev hprev hnd
      have hst1 : (incItemById st u p.itemId p.quantity).2 =
          { st with items := addToId p.itemId p.quantity st.items } := by
        rw [heff]
      rw [rollbackSale_cons, hst1]
      set st2 : Store := deleteMovementById
        { st with items := addToId p.itemId p.quantity st.items }
        p.movementId with hst2
      have hst2items : st2.items = addToId p.itemId p.quantity st.items := rfl
      have hst2movs : st2.movements =
          st.movements.filter (fun m => m.id != p.movementId) := rfl
      have hnd2 : (st2.items.map (fun it => it.id)).Nodup := by
        rw [hst2items, addToId_map_id]; exact hnd
      have hex2 : ∀ p' ∈ ps, ∃ it ∈ st2.items,
          it.id = p'.itemId ∧ it.userId = u := by
        intro p' hp'
        rw [hst2items]
        exact exists_transport_addToId _ _ _ _ _ (hex p' (by simp [hp']))
      obtain ⟨h1, h2⟩ := ih st2 hnd2 hex2
      refine ⟨?_, ?_⟩
      · rw [h1, hst2items, addEffects_cons]
      · rw [h2, hst2movs, List.map_cons, movErase_cons]

/-- Same for the return rollback loop, whose compensating deltas are the
negated returned quantities. -/
theorem rollbackReturn_effect (u : Nat) :
    ∀ (ps : List Processed) (st : Store),
    ((st.items.map (fun it => it.id)).Nodup) →
    (∀ p ∈ ps, ∃ it ∈ st.items, it.id = p.itemId ∧ it.userId = u) →
    (rollbackReturn u ps st).1.items =
        addEffects (fun p => -p.quantity) ps st.items ∧
    (rollbackReturn u ps st).1.movements =
        movErase (ps.map (fun p => p.movementId)) st.movements := by
  intro ps
  induction ps with
  | nil => intro st _ _; exact ⟨rfl, rfl⟩
  | cons p ps ih =>
      intro st hnd hex
      have hfind : (st.items.find?
          (fun it => it.id == p.itemId && it.userId == u)).isSome := by
        rw [List.find?_isSome]
        obtain ⟨it, hmem, hid, hu⟩ := hex p (by simp)
        exact ⟨it, hmem, by simp [hid, hu]⟩
      obtain ⟨prev, hprev⟩ := Option.isSome_iff_exists.mp hfind
      have heff := incItemById_effect st u p.itemId (-p.quantity) prev hprev hnd
      have hst1 : (incItemById st u p.itemId (-p.quantity)).2 =
          { st with items := addToId p.itemId (-p.quantity) st.items } := by
        rw [heff]
      rw [rollbackReturn_cons, hst1]
      set st2 : Store := deleteMovementById
        { st with items := addToId p.itemId (-p.quantity) st.items }
        p.movementId with hst2
      have hst2items : st2.items =
          addToId p.itemId (-p.quantity) st.items := rfl
      have hst2movs : st2.movements =
          st.movements.filter (fun m => m.id != p.movementId) := rfl
      have hnd2 : (st2.items.map (fun it => it.id)).Nodup := by
        rw [hst2items, addToId_map_id]; exact hnd
      have hex2 : ∀ p' ∈ ps, ∃ it ∈ st2.items,
          it.id = p'.itemId ∧ it.userId = u := by
        intro p' hp'
        rw [hst2items]
        exact exists_transport_addToId _ _ _ _ _ (hex p' (by simp [hp']))
      obtain ⟨h1, h2⟩ := ih st2 hnd2 hex2
      refine ⟨?_, ?_⟩
      · rw [h1, hst2items, addEffects_cons]
      · rw [h2, hst2movs, List.map_cons, movErase_cons]

/-! ### Sale-batch loop semantics -/

/-- Master lemma for the failing sale batch, by induction along the line loop.
`st0` is the pre-batch store; the hypotheses are the loop invariant relating
the current store `st`, the processed list `ps` and the created movements
`ms` to `st0`.  On any failure the rollback restores the pre-batch item list
and movement list, the compensation trace has strictly increasing movement
ids (creation order), and the error names a SKU of the batch. -/
theorem saleLoop_error_effect (u : Nat) (cn : Option String) :
    ∀ (lines : List SaleLine) (st st0 : Store) (ps : List Processed)
      (ms : List StockMovement),
    ((st0.items.map (fun it => it.id)).Nodup) →
    (st.items = addEffects (fun p => -p.quantity) ps st0.items) →
    (∀ p ∈ ps, ∃ it ∈ st.items, it.id = p.itemId ∧ it.userId = u) →
    (st.movements = st0.movements ++ ms) →
    (ms.map (fun m => m.id) = ps.map (fun p => p.movementId)) →
    (∀ m ∈ st0.movements, m.id < st0.nextMovementId) →
    (st0.nextMovementId ≤ st.nextMovementId) →
    (∀ p ∈ ps, st0.nextMovementId ≤ p.movementId ∧
       p.movementId < st.nextMovementId) →
    (List.Pairwise (· < ·) (ps.map (fun p => p.movementId))) →
    ∀ st' tr msg, saleLoop u cn lines st ps = (st', tr, Except.error msg) →
      st'.items = st0.items ∧ st'.movements = st0.movements ∧
      List.Pairwise (· < ·) (tr.map (fun p => p.movementId)) ∧
      ∃ l ∈ lines, msg = saleFailMsg l.sku := by
  intro lines
  induction lines with
  | nil =>
      intro st st0 ps ms _ _ _ _ _ _ _ _ _ st' tr msg hrun
      exact absurd hrun (by simp [saleLoop])
  | cons l rest ih =>
      intro st st0 ps ms hnd0 hitems hex hmov hmsid hfresh0 hge hlt hpw
        st' tr msg hrun
      have hnd : (st.items.map (fun it => it.id)).Nodup := by
        rw [hitems, addEffects_map_id]; exact hnd0
      cases hfind : st.items.find?
          (fun it => it.sku == l.sku && it.userId == u &&
            decide (l.quantity ≤ it.quantity)) with
      | none =>
          have hsl : saleLineUpdate st u l.sku l.quantity = (none, st) := by
            simp [saleLineUpdate, findOneAndUpdateItem, hfind]
          rw [saleLoop, hsl] at hrun
          obtain ⟨heff1, heff2⟩ := rollbackSale_effect u ps st hnd hex
          have htr := rollbackSale_trace u ps st
          have hst' : st' = (rollbackSale u ps st).1 := by
            have := congrArg Prod.fst hrun
            simpa using this.symm
          have htr' : tr = ps := by
            have := congrArg (fun x => x.2.1) hrun
            simpa [htr] using this.symm
          have hmsg : msg = saleFailMsg l.sku := by
            have := congrArg (fun x => x.2.2) hrun
            simp only at this
            injection this.symm
          refine ⟨?_, ?_, ?_, ?_⟩
          · rw [hst', heff1, hitems]
            exact addEffects_cancel _ _ ps (fun p _ => by omega) st0.items
          · rw [hst', heff2, hmov, ← hmsid]
            apply movErase_restores
            · intro m hm hcontra
              have hlt0 := hfresh0 m hm
              rw [hmsid] at hcontra
              obtain ⟨p, hp, hpid⟩ := List.mem_map.mp hcontra
              have := (hlt p hp).1
              omega
            · rw [hmsid]
              exact hpw.imp Nat.ne_of_lt
          · rw [htr']; exact hpw
          · exact ⟨l, by simp, hmsg⟩
      | some prev =>
          have hpred := List.find?_some hfind
          simp only [Bool.and_eq_true, beq_iff_eq, decide_eq_true_eq]
            at hpred
          obtain ⟨⟨hsku, hu⟩, hq⟩ := hpred
          have hsl := saleLineUpdate_effect st u l.sku l.quantity prev
            hfind hnd
          set newIt : Item := { prev with quantity := prev.quantity - l.quantity }
            with hnewIt
          set st1 : Store :=
            { st with items := addToId prev.id (-l.quantity) st.items }
            with hst1
          set m : StockMovement :=
            { id := st.nextMovementId, userId := u, itemId := newIt.id,
              type := MovementType.sale, delta := -l.quantity,
              customerName := cn, reason := none, createdAt := st.now }
            with hm
          set st2 : Store :=
            { st1 with movements := st1.movements ++ [m],
                       nextMovementId := st1.nextMovementId + 1 }
            with hst2
          set pnew : Processed :=
            { itemId := newIt.id, quantity := l.quantity,
              movementId := m.id } with hpnew
          have hstep : saleLoop u cn (l :: rest) st ps =
              saleLoop u cn rest st2 (ps ++ [pnew]) := by
            rw [saleLoop, hsl]
            rfl
          rw [hstep] at hrun
          obtain ⟨h1, h2, h3, l', hl', hmsg⟩ :=
            ih st2 st0 (ps ++ [pnew]) (ms ++ [m]) hnd0
              (by
                have hit : st2.items = addToId prev.id (-l.quantity) st.items :=
                  rfl
                rw [hit, hitems, addEffects_append_one])
              (by
                intro p' hp'
                have hit : st2.items = addToId prev.id (-l.quantity) st.items :=
                  rfl
                rcases List.mem_append.mp hp' with hold | hnew
                · rw [hit]
                  exact exists_transport_addToId _ _ _ _ _ (hex p' hold)
                · have hpeq : p' = pnew := by simpa using hnew
                  subst hpeq
                  rw [hit]
                  exact exists_transport_addToId _ _ _ _ _
                    ⟨prev, List.mem_of_find?_eq_some hfind, rfl, hu⟩)
              (by
                show st2.movements = st0.movements ++ (ms ++ [m])
                have hmv : st2.movements = st.movements ++ [m] := rfl
                rw [hmv, hmov, List.append_assoc])
              (by simp [hmsid, hpnew])
              hfresh0
              (by
                show st0.nextMovementId ≤ st2.nextMovementId
                have hnx : st2.nextMovementId = st.nextMovementId + 1 := rfl
                omega)
              (by
                intro p' hp'
                have hnx : st2.nextMovementId = st.nextMovementId + 1 := rfl
                rcases List.mem_append.mp hp' with hold | hnew
                · have := hlt p' hold
                  omega
                · have hpeq : p' = pnew := by simpa using hnew
                  subst hpeq
                  have hmid : pnew.movementId = st.nextMovementId := rfl
                  omega)
              (by
                rw [List.map_append, List.pairwise_append]
                refine ⟨hpw, by simp, ?_⟩
                intro a ha b hb
                obtain ⟨p', hp', hpa⟩ := List.mem_map.mp ha
                have hb' : b = st.nextMovementId := by simpa using hb
                have := (hlt p' hp').2
                omega)
              st' tr msg hrun
          exact ⟨h1, h2, h3, l', by simp [hl'], hmsg⟩

theorem findOneAndUpdateItem_movements (st : Store) (p : Item → Bool)
    (f : Item → Item) : (findOneAndUpdateItem st p f).2.movements =
      st.movements := by
  unfold findOneAndUpdateItem
  cases hf : st.items.find? p <;> rfl

theorem findOneAndUpdateItem_nextMovementId (st : Store) (p : Item → Bool)
    (f : Item → Item) : (findOneAndUpdateItem st p f).2.nextMovementId =
      st.nextMovementId := by
  unfold findOneAndUpdateItem
  cases hf : st.items.find? p <;> rfl

theorem incItemById_movements (st : Store) (u iid : Nat) (d : Int) :
    (incItemById st u iid d).2.movements = st.movements :=
  findOneAndUpdateItem_movements st _ _

theorem rollbackSale_movements_subset (u : Nat) :
    ∀ (ps : List Processed) (st : Store) (m : StockMovement),
    m ∈ (rollbackSale u ps st).1.movements → m ∈ st.movements := by
  intro ps
  induction ps with
  | nil => intro st m hm; exact hm
  | cons p ps ih =>
      intro st m hm
      rw [rollbackSale_cons] at hm
      have hm2 := ih _ m hm
      have hmv : (deleteMovementById
          (incItemById st u p.itemId p.quantity).2 p.movementId).movements =
          ((incItemById st u p.itemId p.quantity).2.movements).filter
            (fun m' => m'.id != p.movementId) := rfl
      rw [hmv, incItemById_movements] at hm2
      exact (List.mem_filter.mp hm2).1

theorem rollbackReturn_movements_subset (u : Nat) :
    ∀ (ps : List Processed) (st : Store) (m : StockMovement),
    m ∈ (rollbackReturn u ps st).1.movements → m ∈ st.movements := by
  intro ps
  induction ps with
  | nil => intro st m hm; exact hm
  | cons p ps ih =>
      intro st m hm
      rw [rollbackReturn_cons] at hm
      have hm2 := ih _ m hm
      have hmv : (deleteMovementById
          (incItemById st u p.itemId (-p.quantity)).2 p.movementId).movements =
          ((incItemById st u p.itemId (-p.quantity)).2.movements).filter
            (fun m' => m'.id != p.movementId) := rfl
      rw [hmv, incItemById_movements] at hm2
      exact (List.mem_filter.mp hm2).1

/-- Light invariant for the trace of a failing sale batch, with no
well-formedness assumptions on the store: the issued compensation trace has
strictly increasing created-movement ids, i.e. it follows application order
(the ids are handed out by the creation counter). -/
theorem saleLoop_error_trace (u : Nat) (cn : Option String) :
    ∀ (lines : List SaleLine) (st : Store) (ps : List Processed),
    (∀ p ∈ ps, p.movementId < st.nextMovementId) →
    (List.Pairwise (· < ·) (ps.map (fun p => p.movementId))) →
    ∀ st' tr msg, saleLoop u cn lines st ps = (st', tr, Except.error msg) →
      List.Pairwise (· < ·) (tr.map (fun p => p.movementId)) := by
  intro lines
  induction lines with
  | nil =>
      intro st ps _ _ st' tr msg hrun
      exact absurd hrun (by simp [saleLoop])
  | cons l rest ih =>
      intro st ps hlt hpw st' tr msg hrun
      cases hfind : st.items.find?
          (fun it => it.sku == l.sku && it.userId == u &&
            decide (l.quantity ≤ it.quantity)) with
      | none =>
          have hsl : saleLineUpdate st u l.sku l.quantity = (none, st) := by
            simp [saleLineUpdate, findOneAndUpdateItem, hfind]
          rw [saleLoop, hsl] at hrun
          have htr : tr = ps := by
            have := congrArg (fun x => x.2.1) hrun
            simpa [rollbackSale_trace] using this.symm
          rw [htr]
          exact hpw
      | some prev =>
          have hsl : saleLineUpdate st u l.sku l.quantity =
              (some { prev with quantity := prev.quantity - l.quantity },
               { st with items := (updateFirstItem
                  (fun it => it.sku == l.sku && it.userId == u &&
                    decide (l.quantity ≤ it.quantity))
                  (fun it => { it with quantity := it.quantity - l.quantity })
                  st.items) }) := by
            simp [saleLineUpdate, findOneAndUpdateItem, hfind]
          rw [saleLoop, hsl] at hrun
          refine ih _ _ ?_ ?_ st' tr msg hrun
          · intro p' hp'
            rcases List.mem_append.mp hp' with hold | hnew
            · have := hlt p' hold
              show p'.movementId < st.nextMovementId + 1
              omega
            · have hpeq : p' = ⟨prev.id, l.quantity, st.nextMovementId⟩ := by
                simpa using hnew
              subst hpeq
              show st.nextMovementId < st.nextMovementId + 1
              omega
          · rw [List.map_append, List.pairwise_append]
            refine ⟨hpw, by simp, ?_⟩
            intro a ha b hb
            obtain ⟨p', hp', hpa⟩ := List.mem_map.mp ha
            have hb' : b = st.nextMovementId := by simpa using hb
            have := hlt p' hp'
            omega

/-- Same light trace invariant for a failing return batch. -/
theorem returnLoop_error_trace (u : Nat) :
    ∀ (lines : List ReturnLine) (st : Store) (ps : List Processed),
    (∀ p ∈ ps, p.movementId < st.nextMovementId) →
    (List.Pairwise (· < ·) (ps.map (fun p => p.movementId))) →
    ∀ st' tr msg, returnLoop u lines st ps = (st', tr, Except.error msg) →
      List.Pairwise (· < ·) (tr.map (fun p => p.movementId)) := by
  intro lines
  induction lines with
  | nil =>
      intro st ps _ _ st' tr msg hrun
      exact absurd hrun (by simp [returnLoop])
  | cons l rest ih =>
      intro st ps hlt hpw st' tr msg hrun
      cases hfind : st.items.find?
          (fun it => it.sku == l.sku && it.userId == u) with
      | none =>
          have hsl : returnLineUpdate st u l.sku l.quantity = (none, st) := by
            simp [returnLineUpdate, findOneAndUpdateItem, hfind]
          rw [returnLoop, hsl] at hrun
          have htr : tr = ps := by
            have := congrArg (fun x => x.2.1) hrun
            simpa [rollbackReturn_trace] using this.symm
          rw [htr]
          exact hpw
      | some prev =>
          have hsl : returnLineUpdate st u l.sku l.quantity =
              (some { prev with quantity := prev.quantity + l.quantity },
               { st with items := (updateFirstItem
                  (fun it => it.sku == l.sku && it.userId == u)
                  (fun it => { it with quantity := it.quantity + l.quantity })
                  st.items) }) := by
            simp [returnLineUpdate, findOneAndUpdateItem, hfind]
          rw [returnLoop, hsl] at hrun
          refine ih _ _ ?_ ?_ st' tr msg hrun
          · intro p' hp'
            rcases List.mem_append.mp hp' with hold | hnew
            · have := hlt p' hold
              show p'.movementId < st.nextMovementId + 1
              omega
            · have hpeq : p' = ⟨prev.id, l.quantity, st.nextMovementId⟩ := by
                simpa using hnew
              subst hpeq
              show st.nextMovementId < st.nextMovementId + 1
              omega
          · rw [List.map_append, List.pairwise_append]
            refine ⟨hpw, by simp, ?_⟩
            intro a ha b hb
            obtain ⟨p', hp', hpa⟩ := List.mem_map.mp ha
            have hb' : b = st.nextMovementId := by simpa using hb
            have := hlt p' hp'
            omega

theorem find?_updateFirstItem_self (p : Item → Bool) (f : Item → Item)
    (l : List Item) (x : Item) (h : l.find? p = some x)
    (hpf : p (f x) = true) :
    (updateFirstItem p f l).find? p = some (f x) := by
  induction l with
  | nil => simp at h
  | cons a l ih =>
      cases hpa : p a with
      | true =>
          rw [List.find?_cons_of_pos _ hpa] at h
          have ha : a = x := by injection h
          subst ha
          simp only [updateFirstItem, if_pos hpa]
          rw [List.find?_cons_of_pos _ hpf]
      | false =>
          rw [List.find?_cons_of_neg _ (by simp [hpa])] at h
          simp only [updateFirstItem, hpa, Bool.false_eq_true, if_false]
          rw [List.find?_cons_of_neg _ (by simp [hpa])]
          exact ih h

theorem updateFirstItem_map_id_of_find? (p : Item → Bool) (f : Item → Item)
    (l : List Item) (x : Item) (h : l.find? p = some x)
    (hid : (f x).id = x.id) :
    (updateFirstItem p f l).map (fun it => it.id) =
      l.map (fun it => it.id) := by
  induction l with
  | nil => rfl
  | cons a l ih =>
      cases hpa : p a with
      | true =>
          rw [List.find?_cons_of_pos _ hpa] at h
          have ha : a = x := by injection h
          subst ha
          simp only [updateFirstItem, if_pos hpa, List.map_cons, hid]
      | false =>
          rw [List.find?_cons_of_neg _ (by simp [hpa])] at h
          simp only [updateFirstItem, hpa, Bool.false_eq_true, if_false,
            List.map_cons]
          rw [ih h]

/-- With unique ids, any member with the sought id and owner is what the
id-and-owner `find?` returns. -/
theorem find?_by_id_user_of_mem (l : List Item) (x : Item) (iid u : Nat)
    (hnd : (l.map (fun it => it.id)).Nodup) (hx : x ∈ l) (hid : x.id = iid)
    (hu : x.userId = u) :
    l.find? (fun it => it.id == iid && it.userId == u) = some x := by
  induction l with
  | nil => simp at hx
  | cons a l ih =>
      simp only [List.map_cons, List.nodup_cons] at hnd
      rcases List.mem_cons.mp hx with rfl | hx'
      · exact List.find?_cons_of_pos _ (by simp [hid, hu])
      · have ha : a.id ≠ iid := by
          intro hcontra
          exact hnd.1 (by rw [hcontra, ← hid]; exact List.mem_map_of_mem _ hx')
        rw [List.find?_cons_of_neg _ (by simp [ha])]
        exact ih hnd.2 hx'

/-- Full characterization of a successful sale-movement reversal: one atomic
`$inc` of the negated original delta on the item, then one appended `return`
movement inheriting `customerName`, with the caller's or the default
reason. -/
theorem reverseSaleMovement_effect (st : Store) (u mid : Nat)
    (reason : Option String) (orig : StockMovement) (prev : Item)
    (hnd : (st.items.map (fun it => it.id)).Nodup)
    (hmov : st.movements.find? (fun m => m.id == mid && m.userId == u)
      = some orig)
    (htype : orig.type = MovementType.sale)
    (hitem : st.items.find?
      (fun it => it.id == orig.itemId && it.userId == u) = some prev) :
    reverseSaleMovement st u mid reason =
      ({ st with
          items := (addToId orig.itemId (-orig.delta) st.items),
          movements := st.movements ++
            [{ id := st.nextMovementId, userId := u, itemId := prev.id,
               type := MovementType.ret, delta := -orig.delta,
               customerName := orig.customerName,
               reason := some (reason.getD (autoReturnReason orig.createdAt)),
               createdAt := st.now }],
          nextMovementId := st.nextMovementId + 1 },
       Except.ok ()) := by
  have hinc := incItemById_effect st u orig.itemId (-orig.delta) prev
    hitem hnd
  rw [reverseSaleMovement, hmov]
  dsimp only
  rw [if_neg (by simp [htype]), hinc]
  rfl

/-- Every movement present after a sale batch (successful or failed) was
either already stored or is a `sale` movement with negative delta (given the
validated positive line quantities). -/
theorem saleLoop_movements_mem (u : Nat) (cn : Option String) :
    ∀ (lines : List SaleLine) (st : Store) (ps : List Processed),
    (∀ l ∈ lines, 1 ≤ l.quantity) →
    ∀ m ∈ (saleLoop u cn lines st ps).1.movements,
      m ∈ st.movements ∨
        (m.type = MovementType.sale ∧ m.delta < 0) := by
  intro lines
  induction lines with
  | nil => intro st ps _ m hm; exact Or.inl hm
  | cons l rest ih =>
      intro st ps hq m hm
      cases hfind : st.items.find?
          (fun it => it.sku == l.sku && it.userId == u &&
            decide (l.quantity ≤ it.quantity)) with
      | none =>
          have hsl : saleLineUpdate st u l.sku l.quantity = (none, st) := by
            simp [saleLineUpdate, findOneAndUpdateItem, hfind]
          rw [saleLoop, hsl] at hm
          exact Or.inl (rollbackSale_movements_subset u ps st m hm)
      | some prev =>
          have hsl : saleLineUpdate st u l.sku l.quantity =
              (some { prev with quantity := prev.quantity - l.quantity },
               { st with items := (updateFirstItem
                  (fun it => it.sku == l.sku && it.userId == u &&
                    decide (l.quantity ≤ it.quantity))
                  (fun it => { it with quantity := it.quantity - l.quantity })
                  st.items) }) := by
            simp [saleLineUpdate, findOneAndUpdateItem, hfind]
          rw [saleLoop, hsl] at hm
          have hres := ih _ _ (fun l' hl' => hq l' (by simp [hl'])) m hm
          rcases hres with hmem | hP
          · have hmv : m ∈ st.movements ++
                [{ id := st.nextMovementId, userId := u, itemId := prev.id,
                   type := MovementType.sale, delta := -l.quantity,
                   customerName := cn, reason := none,
                   createdAt := st.now }] := hmem
            rcases List.mem_append.mp hmv with hold | hnew
            · exact Or.inl hold
            · have hmeq := List.mem_singleton.mp hnew
              subst hmeq
              refine Or.inr ⟨rfl, ?_⟩
              have := hq l (by simp)
              show -l.quantity < 0
              omega
          · exact Or.inr hP

/-- Every movement present after a return batch was either already stored or
is a `return` movement with positive delta. -/
theorem returnLoop_movements_mem (u : Nat) :
    ∀ (lines : List ReturnLine) (st : Store) (ps : List Processed),
    (∀ l ∈ lines, 1 ≤ l.quantity) →
    ∀ m ∈ (returnLoop u lines st ps).1.movements,
      m ∈ st.movements ∨
        (m.type = MovementType.ret ∧ 0 < m.delta) := by
  intro lines
  induction lines with
  | nil => intro st ps _ m hm; exact Or.inl hm
  | cons l rest ih =>
      intro st ps hq m hm
      cases hfind : st.items.find?
          (fun it => it.sku == l.sku && it.userId == u) with
      | none =>
          have hsl : returnLineUpdate st u l.sku l.quantity = (none, st) := by
            simp [returnLineUpdate, findOneAndUpdateItem, hfind]
          rw [returnLoop, hsl] at hm
          exact Or.inl (rollbackReturn_movements_subset u ps st m hm)
      | some prev =>
          have hsl : returnLineUpdate st u l.sku l.quantity =
              (some { prev with quantity := prev.quantity + l.quantity },
               { st with items := (updateFirstItem
                  (fun it => it.sku == l.sku && it.userId == u)
                  (fun it => { it with quantity := it.quantity + l.quantity })
                  st.items) }) := by
            simp [returnLineUpdate, findOneAndUpdateItem, hfind]
          rw [returnLoop, hsl] at hm
          have hres := ih _ _ (fun l' hl' => hq l' (by simp [hl'])) m hm
          rcases hres with hmem | hP
          · have hmv : m ∈ st.movements ++
                [{ id := st.nextMovementId, userId := u, itemId := prev.id,
                   type := MovementType.ret, delta := l.quantity,
                   customerName := none, reason := l.reason,
                   createdAt := st.now }] := hmem
            rcases List.mem_append.mp hmv with hold | hnew
            · exact Or.inl hold
            · have hmeq := List.mem_singleton.mp hnew
              subst hmeq
              refine Or.inr ⟨rfl, ?_⟩
              have := hq l (by simp)
              show (0 : Int) < l.quantity
              omega
          · exact Or.inr hP

/-! ### Running-balance projector lemmas -/

/-- Row `i` (0-indexed, newest first) of the projection is the page's row `i`
annotated with `anchor - sum of the deltas of the strictly newer rows`. -/
theorem runningAnnotate_getElem :
    ∀ (ms : List StockMovement) (q : Int) (i : Nat),
    ((runningAnnotate ms q).1)[i]? =
      (ms[i]?).map
        (fun m => (m, q - (((ms.take i).map (fun m' => m'.delta)).sum))) := by
  intro ms
  induction ms with
  | nil => intro q i; simp [runningAnnotate]
  | cons m rest ih =>
      intro q i
      have hstep : (runningAnnotate (m :: rest) q).1 =
          (m, q) :: (runningAnnotate rest (q - m.delta)).1 := rfl
      cases i with
      | zero =>
          rw [hstep, List.getElem?_cons_zero, List.getElem?_cons_zero]
          simp
      | succ i =>
          rw [hstep, List.getElem?_cons_succ, ih (q - m.delta) i,
            List.getElem?_cons_succ]
          have htake : ((m :: rest).take (i + 1)).map (fun m' => m'.delta) =
              m.delta :: (rest.take i).map (fun m' => m'.delta) := rfl
          rw [htake]
          cases hri : rest[i]? with
          | none => rfl
          | some mi =>
              have harith : q - m.delta -
                  ((rest.take i).map (fun m' => m'.delta)).sum =
                  q - (m.delta +
                    ((rest.take i).map (fun m' => m'.delta)).sum) := by
                omega
              rw [List.sum_cons, harith]

/-- The continuation quantity after a page is the anchor minus the sum of all
the page's deltas. -/
theorem runningAnnotate_continuation :
    ∀ (ms : List StockMovement) (q : Int),
    (runningAnnotate ms q).2 = q - ((ms.map (fun m => m.delta)).sum) := by
  intro ms
  induction ms with
  | nil => intro q; simp [runningAnnotate]
  | cons m rest ih =>
      intro q
      have hstep : (runningAnnotate (m :: rest) q).2 =
          (runningAnnotate rest (q - m.delta)).2 := rfl
      rw [hstep, ih (q - m.delta), List.map_cons, List.sum_cons]
      omega

/-- The projection annotates the page itself: the first components are the
input movements unchanged. -/
theorem runningAnnotate_firsts :
    ∀ (ms : List StockMovement) (q : Int),
    ((runningAnnotate ms q).1).map (fun r => r.1) = ms := by
  intro ms
  induction ms with
  | nil => intro q; rfl
  | cons m rest ih =>
      intro q
      have hstep : (runningAnnotate (m :: rest) q).1 =
          (m, q) :: (runningAnnotate rest (q - m.delta)).1 := rfl
      rw [hstep, List.map_cons, ih (q - m.delta)]

/-! ### Concrete fixtures for witnesses and counterexamples -/

/-- Fixture: item with id 1, owner 7, SKU "A", 10 in stock. -/
def exItemA : Item :=
  { id := 1, userId := 7, sku := "A", name := "a", quantity := 10,
    lowStockThreshold := 0, supplierName := none, status := "active" }

/-- Fixture: item with id 2, owner 7, SKU "B", 10 in stock. -/
def exItemB : Item :=
  { id := 2, userId := 7, sku := "B", name := "b", quantity := 10,
    lowStockThreshold := 0, supplierName := none, status := "active" }

/-- Fixture store with the two items and an empty ledger. -/
def exSt : Store :=
  { items := [exItemA, exItemB], movements := [], nextItemId := 3,
    nextMovementId := 5, now := 100 }

/-- Fixture store identical to `exSt` except item 1 holds 20 in stock. -/
def exSt20 : Store :=
  { items := [{ exItemA with quantity := 20 }, exItemB], movements := [],
    nextItemId := 3, nextMovementId := 5, now := 100 }

/-- Fixture: a recorded sale of 5 of item 1 (delta -5) owned by user 7. -/
def exSaleMov : StockMovement :=
  { id := 0, userId := 7, itemId := 1, type := MovementType.sale,
    delta := -5, customerName := some "cust", reason := none,
    createdAt := 50 }

/-- Fixture store after that sale: item 1 at 15, one sale movement. -/
def exRevSt : Store :=
  { items := [{ exItemA with quantity := 15 }], movements := [exSaleMov],
    nextItemId := 2, nextMovementId := 1, now := 100 }

/-- Fixture: an adjustment movement (not a sale), owned by user 7. -/
def exAdjMov : StockMovement :=
  { id := 0, userId := 7, itemId := 1, type := MovementType.adjustment,
    delta := 3, customerName := none, reason := some "recount",
    createdAt := 50 }

/-- Fixture store holding the adjustment movement. -/
def exAdjSt : Store :=
  { items := [exItemA], movements := [exAdjMov], nextItemId := 2,
    nextMovementId := 1, now := 100 }

/-! ### The claims -/

/-- C1: every sale line is a single conditional atomic update whose filter
requires the current quantity to be at least the line quantity; hence a
successful line leaves the updated item's quantity at `prev - q ≥ 0` (and
every other item untouched), so no item of a store of non-negative
quantities ever goes negative; and a line whose filter does not match
(missing item or insufficient stock) leaves the store — in particular the
item's quantity — unchanged. -/
theorem claim_C1_sale_line_atomic_no_negative (st : Store) (u : Nat)
    (sku : String) (q : Int)
    (hpos : ∀ it ∈ st.items, 0 ≤ it.quantity) :
    (∀ it st', saleLineUpdate st u sku q = (some it, st') →
      (∃ prev ∈ st.items, prev.sku = sku ∧ prev.userId = u ∧
        q ≤ prev.quantity ∧
        it = { prev with quantity := prev.quantity - q }) ∧
      0 ≤ it.quantity ∧ (∀ j ∈ st'.items, 0 ≤ j.quantity)) ∧
    (∀ st', saleLineUpdate st u sku q = (none, st') → st' = st) := by
  constructor
  · intro it st' h
    cases hfind : st.items.find?
        (fun it => it.sku == sku && it.userId == u &&
          decide (q ≤ it.quantity)) with
    | none =>
        rw [saleLineUpdate, findOneAndUpdateItem, hfind] at h
        exact absurd h (by simp)
    | some prev =>
        rw [saleLineUpdate, findOneAndUpdateItem, hfind] at h
        have hpred := List.find?_some hfind
        simp only [Bool.and_eq_true, beq_iff_eq, decide_eq_true_eq] at hpred
        obtain ⟨⟨hsku, hu⟩, hq⟩ := hpred
        have hit : it = { prev with quantity := prev.quantity - q } := by
          have := congrArg Prod.fst h
          simp only at this
          injection this.symm
        have hst' : st' = { st with items := (updateFirstItem
            (fun it => it.sku == sku && it.userId == u &&
              decide (q ≤ it.quantity))
            (fun it => { it with quantity := it.quantity - q })
            st.items) } := by
          have := congrArg Prod.snd h
          simpa using this.symm
        refine ⟨⟨prev, List.mem_of_find?_eq_some hfind, hsku, hu, hq, hit⟩,
          ?_, ?_⟩
        · rw [hit]
          show 0 ≤ prev.quantity - q
          omega
        · intro j hj
          rw [hst'] at hj
          rcases mem_updateFirstItem _ _ _ _ hj with hmem | ⟨y, hy, hpy, hjy⟩
          · exact hpos j hmem
          · simp only [Bool.and_eq_true, beq_iff_eq, decide_eq_true_eq]
              at hpy
            obtain ⟨_, hqy⟩ := hpy
            rw [hjy]
            show 0 ≤ y.quantity - q
            omega
  · intro st' h
    cases hfind : st.items.find?
        (fun it => it.sku == sku && it.userId == u &&
          decide (q ≤ it.quantity)) with
    | none =>
        rw [saleLineUpdate, findOneAndUpdateItem, hfind] at h
        have := congrArg Prod.snd h
        simpa using this.symm
    | some prev =>
        rw [saleLineUpdate, findOneAndUpdateItem, hfind] at h
        exact absurd (congrArg Prod.fst h) (by simp)

/-- Witness for C1 at the fixture store: selling 3 of "A" succeeds with the
filter satisfied and every quantity still non-negative; selling a missing
SKU "Z" leaves the store unchanged. -/
theorem claim_C1_witness :
    ((0 : Int) ≤ ({ exItemA with quantity := 7 } : Item).quantity ∧
      (∀ j ∈ (saleLineUpdate exSt 7 "A" 3).2.items, 0 ≤ j.quantity)) ∧
    (saleLineUpdate exSt 7 "Z" 1).2 = exSt := by
  have hmain := claim_C1_sale_line_atomic_no_negative exSt 7 "A" 3
    (by decide)
  have h1 := (hmain.1 { exItemA with quantity := 7 }
    (saleLineUpdate exSt 7 "A" 3).2 (by rfl))
  have hfail := claim_C1_sale_line_atomic_no_negative exSt 7 "Z" 1
    (by decide)
  have h2 := hfail.2 (saleLineUpdate exSt 7 "Z" 1).2 (by rfl)
  exact ⟨⟨h1.2.1, h1.2.2⟩, h2⟩

/-- C2: for a sale batch whose first failing line is Lk (executed
sequentially, no fault injection), after `recordSale` returns: the item list
equals its pre-batch value (so lines 1..k-1's items are numerically restored
and line k's item is untouched), no movement created by lines 1..k-1
remains, and the call fails with a single domain error naming the failing
SKU.  The store is assumed well formed: unique item ids and movement ids
below the creation counter. -/
theorem claim_C2_failed_sale_batch_restores (st : Store) (u : Nat)
    (cn : Option String) (lines : List SaleLine)
    (hnd : (st.items.map (fun it => it.id)).Nodup)
    (hfresh : ∀ m ∈ st.movements, m.id < st.nextMovementId)
    (hne : lines ≠ [])
    (st' : Store) (tr : List Processed) (msg : String)
    (hrun : recordSale st u cn lines = (st', tr, Except.error msg)) :
    st'.items = st.items ∧ st'.movements = st.movements ∧
    ∃ l ∈ lines, msg = saleFailMsg l.sku := by
  rw [recordSale, if_neg (by simpa using hne)] at hrun
  have h := saleLoop_error_effect u cn lines st st [] [] hnd rfl
    (by simp) (by simp [addEffects_nil]) rfl hfresh le_rfl (by simp)
    (by simp) st' tr msg hrun
  exact ⟨h.1, h.2.1, h.2.2.2⟩

/-- Witness for C2: the batch [3 of "A", 1 of "C"] fails at the second line
("C" does not exist); afterwards the items and the ledger equal their
pre-batch values and the error names "C". -/
theorem claim_C2_witness :
    (recordSale exSt 7 none [⟨"A", 3⟩, ⟨"C", 1⟩]).1.items = exSt.items ∧
    (recordSale exSt 7 none [⟨"A", 3⟩, ⟨"C", 1⟩]).1.movements =
      exSt.movements := by
  have h := claim_C2_failed_sale_batch_restores exSt 7 none
    [⟨"A", 3⟩, ⟨"C", 1⟩] (by decide) (by decide) (by decide)
    (recordSale exSt 7 none [⟨"A", 3⟩, ⟨"C", 1⟩]).1
    (recordSale exSt 7 none [⟨"A", 3⟩, ⟨"C", 1⟩]).2.1
    (saleFailMsg "C") (by rfl)
  exact ⟨h.1, h.2.1⟩

/-- C3 counterexample: in the batch [3 of "A", 4 of "B", 1 of "C"] on the
fixture store, lines 1 and 2 apply (items 1 then 2, movement ids 5 then 6)
and line 3 fails.  The compensation loop issues its compensations in the
trace order [item 1, item 2] — the forward order of application — whereas the
claim requires the reverse order [item 2, item 1]. -/
theorem claim_C3_counterexample :
    ((recordSale exSt 7 none [⟨"A", 3⟩, ⟨"B", 4⟩, ⟨"C", 1⟩]).2.1.map
      (fun p => p.itemId) = [1, 2]) ∧
    ((recordSale exSt 7 none [⟨"A", 3⟩, ⟨"B", 4⟩, ⟨"C", 1⟩]).2.1.map
      (fun p => p.movementId) = [5, 6]) ∧
    ([1, 2] : List Nat) ≠ [2, 1] := by
  refine ⟨by decide, by decide, by decide⟩

/-- C3 amended: when a batch sale or batch return fails at some line, the
orchestrator compensates the already-applied lines in FORWARD order of
application (the `for (const processed of processedItems)` loop): the issued
compensation trace carries strictly increasing created-movement ids, i.e. it
lists the applied lines oldest-first, not in reverse. -/
theorem claim_C3_amended_forward_rollback_order :
    (∀ (st : Store) (u : Nat) (cn : Option String) (lines : List SaleLine)
      (st' : Store) (tr : List Processed) (msg : String),
      recordSale st u cn lines = (st', tr, Except.error msg) →
      List.Pairwise (· < ·) (tr.map (fun p => p.movementId))) ∧
    (∀ (st : Store) (u : Nat) (lines : List ReturnLine)
      (st' : Store) (tr : List Processed) (msg : String),
      recordReturn st u lines = (st', tr, Except.error msg) →
      List.Pairwise (· < ·) (tr.map (fun p => p.movementId))) := by
  constructor
  · intro st u cn lines st' tr msg hrun
    by_cases hlines : lines.isEmpty
    · rw [recordSale, if_pos hlines] at hrun
      have htr : tr = [] := by
        have := congrArg (fun x => x.2.1) hrun
        simpa using this.symm
      rw [htr]
      exact List.Pairwise.nil
    · rw [recordSale, if_neg hlines] at hrun
      exact saleLoop_error_trace u cn lines st [] (by simp) (by simp)
        st' tr msg hrun
  · intro st u lines st' tr msg hrun
    by_cases hlines : lines.isEmpty
    · rw [recordReturn, if_pos hlines] at hrun
      have htr : tr = [] := by
        have := congrArg (fun x => x.2.1) hrun
        simpa using this.symm
      rw [htr]
      exact List.Pairwise.nil
    · rw [recordReturn, if_neg hlines] at hrun
      exact returnLoop_error_trace u lines st [] (by simp) (by simp)
        st' tr msg hrun

/-- Witness for the amended C3 at the counterexample batch: the issued
compensation trace's movement ids are strictly increasing. -/
theorem claim_C3_witness :
    List.Pairwise (· < ·)
      ((recordSale exSt 7 none [⟨"A", 3⟩, ⟨"B", 4⟩, ⟨"C", 1⟩]).2.1.map
        (fun p => p.movementId)) :=
  claim_C3_amended_forward_rollback_order.1 exSt 7 none
    [⟨"A", 3⟩, ⟨"B", 4⟩, ⟨"C", 1⟩]
    (recordSale exSt 7 none [⟨"A", 3⟩, ⟨"B", 4⟩, ⟨"C", 1⟩]).1
    (recordSale exSt 7 none [⟨"A", 3⟩, ⟨"B", 4⟩, ⟨"C", 1⟩]).2.1
    (saleFailMsg "C") (by rfl)

/-- C5: the running-balance projection annotates row `i` of the newest-first
page (0-indexed, so the claim's row `i+1`) with `Q - sum(d1..di)` — row 1
carries `Q` itself — and returns `Q - sum(d1..dn)` as the continuation
quantity; the annotated rows are the page's own movements in order, and the
whole projection is a pure function of the page and the anchor. -/
theorem claim_C5_running_balance (ms : List StockMovement) (q : Int) :
    (∀ i : Nat, ((runningAnnotate ms q).1)[i]? =
      (ms[i]?).map (fun m =>
        (m, q - (((ms.take i).map (fun m' => m'.delta)).sum)))) ∧
    ((runningAnnotate ms q).1).map (fun r => r.1) = ms ∧
    (runningAnnotate ms q).2 = q - ((ms.map (fun m => m.delta)).sum) :=
  ⟨fun i => runningAnnotate_getElem ms q i,
   runningAnnotate_firsts ms q,
   runningAnnotate_continuation ms q⟩

/-- Helper: after an id-keyed bump, the id-lookup finds the bumped document
(unique ids). -/
theorem find?_id_addToId (l : List Item) (x : Item) (iid : Nat) (d : Int)
    (hnd : (l.map (fun it => it.id)).Nodup) (hx : x ∈ l) (hid : x.id = iid) :
    (addToId iid d l).find? (fun it => it.id == iid) =
      some { x with quantity := x.quantity + d } := by
  have hmem := addToId_quantity_mem iid d l x hx
  rw [if_pos hid] at hmem
  exact find?_by_id_of_mem _ _ _ (by rw [addToId_map_id]; exact hnd)
    hmem hid

/-- C4 counterexample.  First half: the adjust route's quantity change is a
read phase (`findOne`) followed by an unconditional save of a quantity
computed from the snapshot.  With item 1 at 10, a snapshot taken, a
concurrent atomic `$inc` of +5 (quantity 15), and then the adjust write of
+3, the stored quantity becomes 13 — the concurrent increment is lost — not
`15 + 3`, which a one-step conditional `$inc` would give.  Second half: the
item-update route writes the request's absolute quantity (7) over both a
store where the item holds 10 and one where it holds 20, so the applied
change depends on the prior stock and is not a request-determined
increment. -/
theorem claim_C4_counterexample :
    (adjustRead exSt 7 1 = some exItemA ∧
     itemQuantity ((adjustWrite (incItemById exSt 7 1 5).2 exItemA 3)) 1 =
       some 13 ∧
     itemQuantity (incItemById exSt 7 1 5).2 1 = some 15 ∧
     ((13 : Int) ≠ 15 + 3)) ∧
    (itemQuantity (updateItem exSt 7 1 "a" 7 0 none).1 1 = some 7 ∧
     itemQuantity (updateItem exSt20 7 1 "a" 7 0 none).1 1 = some 7 ∧
     itemQuantity exSt 1 = some 10 ∧ itemQuantity exSt20 1 = some 20 ∧
     ((7 : Int) - 10 ≠ 7 - 20)) := by
  refine ⟨⟨by decide, by decide, by decide, by decide⟩,
    by decide, by decide, by decide, by decide, by decide⟩

/-- C4 amended: the TS sale-line, return-line and by-id (`$inc`) mutations
are single conditional atomic relative updates — a matching update always
yields `previous quantity + request delta` and a non-matching one changes
nothing — but `adjustQuantity`'s write phase stores the quantity computed
from its read snapshot regardless of the stock at write time, and the item
update route stores the request's absolute quantity; so the claim's "never a
separate read followed by an unconditional write" fails for those two
operations. -/
theorem claim_C4_amended_mutation_paths :
    (∀ (st : Store) (u : Nat) (sku : String) (q : Int) it st',
      saleLineUpdate st u sku q = (some it, st') →
      ∃ prev ∈ st.items, q ≤ prev.quantity ∧
        it = { prev with quantity := prev.quantity - q }) ∧
    (∀ (st : Store) (u : Nat) (sku : String) (q : Int) st',
      saleLineUpdate st u sku q = (none, st') → st' = st) ∧
    (∀ (st : Store) (u : Nat) (sku : String) (q : Int) it st',
      returnLineUpdate st u sku q = (some it, st') →
      ∃ prev ∈ st.items, it = { prev with quantity := prev.quantity + q }) ∧
    (∀ (st : Store) (u iid : Nat) (d : Int) it st',
      incItemById st u iid d = (some it, st') →
      ∃ prev ∈ st.items, it = { prev with quantity := prev.quantity + d }) ∧
    (∀ (st : Store) (snapshot : Item) (d : Int) x,
      st.items.find? (fun it => it.id == snapshot.id) = some x →
      itemQuantity (adjustWrite st snapshot d) snapshot.id =
        some (snapshot.quantity + d)) ∧
    (∀ (st : Store) (u iid : Nat) (nm : String) (q th : Int)
        (sn : Option String) (item : Item),
      (st.items.map (fun it => it.id)).Nodup →
      st.items.find? (fun it => it.id == iid && it.userId == u) = some item →
      itemQuantity (updateItem st u iid nm q th sn).1 iid = some q) := by
  refine ⟨?_, ?_, ?_, ?_, ?_, ?_⟩
  · intro st u sku q it st' h
    cases hfind : st.items.find?
        (fun it => it.sku == sku && it.userId == u &&
          decide (q ≤ it.quantity)) with
    | none =>
        rw [saleLineUpdate, findOneAndUpdateItem, hfind] at h
        exact absurd (congrArg Prod.fst h) (by simp)
    | some prev =>
        rw [saleLineUpdate, findOneAndUpdateItem, hfind] at h
        have hpred := List.find?_some hfind
        simp only [Bool.and_eq_true, beq_iff_eq, decide_eq_true_eq] at hpred
        have hit : it = { prev with quantity := prev.quantity - q } := by
          have := congrArg Prod.fst h
          simp only at this
          injection this.symm
        exact ⟨prev, List.mem_of_find?_eq_some hfind, hpred.2, hit⟩
  · intro st u sku q st' h
    cases hfind : st.items.find?
        (fun it => it.sku == sku && it.userId == u &&
          decide (q ≤ it.quantity)) with
    | none =>
        rw [saleLineUpdate, findOneAndUpdateItem, hfind] at h
        have := congrArg Prod.snd h
        simpa using this.symm
    | some prev =>
        rw [saleLineUpdate, findOneAndUpdateItem, hfind] at h
        exact absurd (congrArg Prod.fst h) (by simp)
  · intro st u sku q it st' h
    cases hfind : st.items.find?
        (fun it => it.sku == sku && it.userId == u) with
    | none =>
        rw [returnLineUpdate, findOneAndUpdateItem, hfind] at h
        exact absurd (congrArg Prod.fst h) (by simp)
    | some prev =>
        rw [returnLineUpdate, findOneAndUpdateItem, hfind] at h
        have hit : it = { prev with quantity := prev.quantity + q } := by
          have := congrArg Prod.fst h
          simp only at this
          injection this.symm
        exact ⟨prev, List.mem_of_find?_eq_some hfind, hit⟩
  · intro st u iid d it st' h
    cases hfind : st.items.find?
        (fun it => it.id == iid && it.userId == u) with
    | none =>
        rw [incItemById, findOneAndUpdateItem, hfind] at h
        exact absurd (congrArg Prod.fst h) (by simp)
    | some prev =>
        rw [incItemById, findOneAndUpdateItem, hfind] at h
        have hit : it = { prev with quantity := prev.quantity + d } := by
          have := congrArg Prod.fst h
          simp only at this
          injection this.symm
        exact ⟨prev, List.mem_of_find?_eq_some hfind, hit⟩
  · intro st snapshot d x hx
    have hfound := find?_updateFirstItem_self
      (fun it => it.id == snapshot.id)
      (fun _ => { snapshot with quantity := snapshot.quantity + d })
      st.items x hx (by simp)
    show ((adjustWrite st snapshot d).items.find?
      (fun it => it.id == snapshot.id)).map (fun it => it.quantity) = _
    have hitems : (adjustWrite st snapshot d).items =
        updateFirstItem (fun it => it.id == snapshot.id)
          (fun _ => { snapshot with quantity := snapshot.quantity + d })
          st.items := rfl
    rw [hitems, hfound]
    rfl
  · intro st u iid nm q th sn item hnd hfind
    have hpred := List.find?_some hfind
    simp only [Bool.and_eq_true, beq_iff_eq] at hpred
    obtain ⟨hid, hu⟩ := hpred
    have hfi : st.items.find? (fun it => it.id == item.id) = some item :=
      find?_by_id_of_mem st.items item item.id hnd
        (List.mem_of_find?_eq_some hfind) rfl
    have hres : (updateItem st u iid nm q th sn).1.items =
        updateFirstItem (fun it => it.id == item.id)
          (fun _ => { item with
            name := nm, quantity := q, lowStockThreshold := th,
            supplierName := sn }) st.items := by
      simp only [updateItem, hfind]
    have hupdmem := updated_mem_updateFirstItem
      (fun it => it.id == item.id)
      (fun _ => { item with
        name := nm, quantity := q, lowStockThreshold := th,
        supplierName := sn }) st.items item hfi
    have hnd' : ((updateItem st u iid nm q th sn).1.items.map
        (fun it => it.id)).Nodup := by
      rw [hres, updateFirstItem_map_id_of_find? _ _ _ _ hfi rfl]
      exact hnd
    have hfinal := find?_by_id_of_mem
      ((updateItem st u iid nm q th sn).1.items)
      ({ item with
        name := nm, quantity := q, lowStockThreshold := th,
        supplierName := sn }) iid hnd' (by rw [hres]; exact hupdmem) hid
    show (((updateItem st u iid nm q th sn).1.items).find?
      (fun it => it.id == iid)).map (fun it => it.quantity) = some q
    rw [hfinal]
    rfl

/-- Witness for the amended C4: on the fixture store, the adjust write stores
the snapshot-computed quantity, and the item update stores the request's
absolute quantity. -/
theorem claim_C4_witness :
    itemQuantity (adjustWrite exSt exItemA 3) exItemA.id =
      some (exItemA.quantity + 3) ∧
    itemQuantity (updateItem exSt 7 1 "a" 7 0 none).1 1 = some 7 := by
  have h1 := claim_C4_amended_mutation_paths.2.2.2.2.1 exSt exItemA 3
    exItemA (by rfl)
  have h2 := claim_C4_amended_mutation_paths.2.2.2.2.2 exSt 7 1 "a" 7 0
    none exItemA (by decide) (by rfl)
  exact ⟨h1, h2⟩

/-- C6: reversing a caller-owned sale movement whose item still exists
succeeds, applies delta `-M.delta` to the item (so the item regains the
quantity it had before the sale), and creates exactly one new movement with
`type = return`, `delta = -M.delta`, `customerName` inherited from the
original, and `reason` equal to the caller's reason or, when none is
supplied, the auto-generated string referencing the original's creation
date. -/
theorem claim_C6_reverse_applies_inverse_delta (st : Store) (u mid : Nat)
    (reason : Option String) (orig : StockMovement) (prev : Item)
    (hnd : (st.items.map (fun it => it.id)).Nodup)
    (hmov : st.movements.find? (fun m => m.id == mid && m.userId == u)
      = some orig)
    (htype : orig.type = MovementType.sale)
    (hitem : st.items.find?
      (fun it => it.id == orig.itemId && it.userId == u) = some prev) :
    (reverseSaleMovement st u mid reason).2 = Except.ok () ∧
    itemQuantity (reverseSaleMovement st u mid reason).1 orig.itemId =
      some (prev.quantity - orig.delta) ∧
    (reverseSaleMovement st u mid reason).1.movements = st.movements ++
      [{ id := st.nextMovementId, userId := u, itemId := prev.id,
         type := MovementType.ret, delta := -orig.delta,
         customerName := orig.customerName,
         reason := some (reason.getD (autoReturnReason orig.createdAt)),
         createdAt := st.now }] ∧
    prev.id = orig.itemId := by
  have hpid : prev.id = orig.itemId := by
    have := List.find?_some hitem
    simp only [Bool.and_eq_true, beq_iff_eq] at this
    exact this.1
  have heff := reverseSaleMovement_effect st u mid reason orig prev hnd
    hmov htype hitem
  refine ⟨by rw [heff], ?_, by rw [heff], hpid⟩
  have hq := find?_id_addToId st.items prev orig.itemId (-orig.delta)
    hnd (List.mem_of_find?_eq_some hitem) hpid
  show ((reverseSaleMovement st u mid reason).1.items.find?
    (fun it => it.id == orig.itemId)).map (fun it => it.quantity) = _
  rw [heff]
  show ((addToId orig.itemId (-orig.delta) st.items).find?
    (fun it => it.id == orig.itemId)).map (fun it => it.quantity) = _
  rw [hq]
  show some (prev.quantity + -orig.delta) = some (prev.quantity - orig.delta)
  rw [sub_eq_add_neg]

/-- Witness for C6: the spec's scenario — item at 15 after a sale of 5
(delta -5); the reversal succeeds, the item returns to 20, and the new
movement is a `return` of +5 inheriting the customer and carrying the
auto-generated reason. -/
theorem claim_C6_witness :
    (reverseSaleMovement exRevSt 7 0 none).2 = Except.ok () ∧
    itemQuantity (reverseSaleMovement exRevSt 7 0 none).1
      exSaleMov.itemId =
      some (({ exItemA with quantity := 15 } : Item).quantity -
        exSaleMov.delta) ∧
    (reverseSaleMovement exRevSt 7 0 none).1.movements =
      exRevSt.movements ++
      [{ id := 1, userId := 7, itemId := 1,
         type := MovementType.ret, delta := -exSaleMov.delta,
         customerName := exSaleMov.customerName,
         reason := some (autoReturnReason exSaleMov.createdAt),
         createdAt := 100 }] := by
  have h := claim_C6_reverse_applies_inverse_delta exRevSt 7 0 none
    exSaleMov { exItemA with quantity := 15 } (by decide) (by rfl)
    (by decide) (by rfl)
  exact ⟨h.1, h.2.1, h.2.2.1⟩

/-- The claim's type-inference rule for `adjustQuantity`, written from the
claim's own words (C7): the caller's type when it is one of the five allowed
kinds; otherwise `adjustment`, except that a positive delta with no explicit
type is recorded as `purchase`. -/
def claimedAdjustType (type' : Option String) (delta : Int) : MovementType :=
  match type' with
  | some s =>
    match strToType s with
    | some t => t
    | none => MovementType.adjustment
  | none =>
    if 0 < delta then MovementType.purchase else MovementType.adjustment

/-- C7: under the adjust route's validation (the supplied type, when
present, is one of the five allowed kinds), `adjustQuantity` records a
movement whose type follows the claim's inference rule and whose delta is
the caller's delta; the rule maps a positive delta with no explicit type to
`purchase` and any other untyped delta to `adjustment`. -/
theorem claim_C7_adjust_type_inference (st : Store) (u iid : Nat) (d : Int)
    (reason : String) (type' : Option String)
    (hval : ∀ s, type' = some s → (strToType s).isSome) :
    movementTypeFor type' d = claimedAdjustType type' d ∧
    (∀ item, adjustRead st u iid = some item →
      ∃ mv, (adjustQuantity st u iid d reason type').2 = Except.ok mv ∧
        mv.type = claimedAdjustType type' d ∧ mv.delta = d) := by
  have hmt : movementTypeFor type' d = claimedAdjustType type' d := by
    cases type' with
    | none => rfl
    | some s =>
        have hsome := hval s rfl
        cases hst : strToType s with
        | none => rw [hst] at hsome; simp at hsome
        | some t => simp [movementTypeFor, claimedAdjustType, hst]
  refine ⟨hmt, ?_⟩
  intro item hread
  simp only [adjustQuantity, hread]
  exact ⟨_, rfl, hmt, rfl⟩

/-- Witness for C7: the claim's two scenarios — `delta = +10` with no type
records `purchase`; `delta = -3` with no type records `adjustment`. -/
theorem claim_C7_witness :
    movementTypeFor none (10 : Int) = claimedAdjustType none 10 ∧
    claimedAdjustType none (10 : Int) = MovementType.purchase ∧
    claimedAdjustType none (-3 : Int) = MovementType.adjustment ∧
    (∃ mv, (adjustQuantity exSt 7 1 (-3) "shrink" none).2 = Except.ok mv ∧
      mv.type = claimedAdjustType none (-3) ∧ mv.delta = -3) := by
  have h10 := claim_C7_adjust_type_inference exSt 7 1 10 "restock" none
    (fun s hs => by cases hs)
  have h3 := claim_C7_adjust_type_inference exSt 7 1 (-3) "shrink" none
    (fun s hs => by cases hs)
  exact ⟨h10.1, by decide, by decide, h3.2 exItemA (by rfl)⟩

/-- C8: `reverseSaleMovement` rejects, before any store write, both a
movement not owned by the caller (the owner-filtered lookup misses) and a
movement whose type is not `sale`: the store is returned unchanged — no item
quantity changes and no movement is created — with an error. -/
theorem claim_C8_reverse_preconditions (st : Store) (u mid : Nat)
    (reason : Option String) :
    ((∀ m ∈ st.movements, m.id = mid → m.userId ≠ u) →
      (reverseSaleMovement st u mid reason).1 = st ∧
      (reverseSaleMovement st u mid reason).2 =
        Except.error "Original movement not found") ∧
    (∀ orig,
      st.movements.find? (fun m => m.id == mid && m.userId == u)
        = some orig →
      orig.type ≠ MovementType.sale →
      (reverseSaleMovement st u mid reason).1 = st ∧
      (reverseSaleMovement st u mid reason).2 =
        Except.error "Only sale transactions can be returned") := by
  constructor
  · intro hown
    have hfind : st.movements.find?
        (fun m => m.id == mid && m.userId == u) = none := by
      rw [List.find?_eq_none]
      intro m hm hp
      simp only [Bool.and_eq_true, beq_iff_eq] at hp
      exact hown m hm hp.1 hp.2
    rw [reverseSaleMovement, hfind]
    exact ⟨rfl, rfl⟩
  · intro orig hfind htype
    rw [reverseSaleMovement, hfind]
    dsimp only
    rw [if_pos htype]
    exact ⟨rfl, rfl⟩

/-- Witness for C8: user 9 cannot reverse user 7's sale movement (store
unchanged), and reversing an `adjustment` movement is rejected with the
store unchanged. -/
theorem claim_C8_witness :
    ((reverseSaleMovement exRevSt 9 0 none).1 = exRevSt ∧
     (reverseSaleMovement exRevSt 9 0 none).2 =
       Except.error "Original movement not found") ∧
    ((reverseSaleMovement exAdjSt 7 0 none).1 = exAdjSt ∧
     (reverseSaleMovement exAdjSt 7 0 none).2 =
       Except.error "Only sale transactions can be returned") := by
  constructor
  · exact (claim_C8_reverse_preconditions exRevSt 9 0 none).1 (by decide)
  · exact (claim_C8_reverse_preconditions exAdjSt 7 0 none).2 exAdjMov
      (by rfl) (by decide)

/-- Fixture: an empty store. -/
def exEmptySt : Store :=
  { items := [], movements := [], nextItemId := 0, nextMovementId := 0,
    now := 9 }

/-- C9 counterexample: `createItem` with initial quantity 0 — accepted by
the item validation schema, whose minimum is 0 — records an `initial`
movement whose delta is 0, which is not positive; so "a movement with type
'initial' has positive delta" fails. -/
theorem claim_C9_counterexample :
    ((createItem exEmptySt 1 "widget" 0 0 none "W").1.movements.map
      (fun m => (m.type, m.delta))) =
        [(MovementType.initial, (0 : Int))] ∧
    ¬((0 : Int) > 0) := by
  exact ⟨by decide, by decide⟩

/-- C9 amended: the delta sign rules that the operations actually maintain —
every movement created by a sale line is a `sale` movement with negative
delta and every movement created by a return line is a `return` movement
with positive delta (line quantities being validated positive); every
movement created by `adjustQuantity` carries the caller's delta, nonzero
under the adjustment validation, whatever its type; and the `initial`
movement created by `createItem` has delta equal to the initial quantity,
which is only non-negative (zero when the item starts empty), not strictly
positive. -/
theorem claim_C9_amended_delta_sign_rules :
    (∀ (st : Store) (u : Nat) (cn : Option String) (lines : List SaleLine),
      (∀ l ∈ lines, 1 ≤ l.quantity) →
      ∀ m ∈ (recordSale st u cn lines).1.movements,
        m ∈ st.movements ∨
          (m.type = MovementType.sale ∧ m.delta < 0)) ∧
    (∀ (st : Store) (u : Nat) (lines : List ReturnLine),
      (∀ l ∈ lines, 1 ≤ l.quantity) →
      ∀ m ∈ (recordReturn st u lines).1.movements,
        m ∈ st.movements ∨
          (m.type = MovementType.ret ∧ 0 < m.delta)) ∧
    (∀ (st : Store) (u iid : Nat) (d : Int) (r : String)
        (t : Option String), d ≠ 0 →
      ∀ m ∈ (adjustQuantity st u iid d r t).1.movements,
        m ∈ st.movements ∨ m.delta ≠ 0) ∧
    (∀ (st : Store) (u : Nat) (nm : String) (q th : Int)
        (sn : Option String) (sku : String), 0 ≤ q →
      ∀ m ∈ (createItem st u nm q th sn sku).1.movements,
        m ∈ st.movements ∨
          (m.type = MovementType.initial ∧ 0 ≤ m.delta)) := by
  refine ⟨?_, ?_, ?_, ?_⟩
  · intro st u cn lines hq m hm
    by_cases hlines : lines.isEmpty
    · rw [recordSale, if_pos hlines] at hm
      exact Or.inl hm
    · rw [recordSale, if_neg hlines] at hm
      exact saleLoop_movements_mem u cn lines st [] hq m hm
  · intro st u lines hq m hm
    by_cases hlines : lines.isEmpty
    · rw [recordReturn, if_pos hlines] at hm
      exact Or.inl hm
    · rw [recordReturn, if_neg hlines] at hm
      exact returnLoop_movements_mem u lines st [] hq m hm
  · intro st u iid d r t hd m hm
    cases hread : adjustRead st u iid with
    | none =>
        simp only [adjustQuantity, hread] at hm
        exact Or.inl hm
    | some item =>
        simp only [adjustQuantity, hread] at hm
        have hmv : m ∈ (adjustWrite st item d).movements ++
            [{ id := (adjustWrite st item d).nextMovementId, userId := u,
               itemId := item.id, type := movementTypeFor t d, delta := d,
               customerName := none, reason := some r,
               createdAt := (adjustWrite st item d).now }] := hm
        rcases List.mem_append.mp hmv with hold | hnew
        · exact Or.inl hold
        · have hmeq := List.mem_singleton.mp hnew
          subst hmeq
          exact Or.inr hd
  · intro st u nm q th sn sku hq m hm
    have hmv : m ∈ st.movements ++
        [{ id := st.nextMovementId, userId := u, itemId := st.nextItemId,
           type := MovementType.initial, delta := q,
           customerName := none, reason := some "Initial stock",
           createdAt := st.now }] := hm
    rcases List.mem_append.mp hmv with hold | hnew
    · exact Or.inl hold
    · have hmeq := List.mem_singleton.mp hnew
      subst hmeq
      exact Or.inr ⟨rfl, hq⟩

/-- The `initial` movement created by the C9 witness run. -/
def exInitialMov : StockMovement :=
  { id := 0, userId := 1, itemId := 0, type := MovementType.initial,
    delta := 5, customerName := none, reason := some "Initial stock",
    createdAt := 9 }

/-- Witness for the amended C9: creating an item with 5 in stock records a
movement that is new and is an `initial` row with non-negative delta. -/
theorem claim_C9_witness :
    exInitialMov ∈ exEmptySt.movements ∨
    (exInitialMov.type = MovementType.initial ∧
      (0 : Int) ≤ exInitialMov.delta) :=
  claim_C9_amended_delta_sign_rules.2.2.2 exEmptySt 1 "x" 5 0 none "W"
    (by decide) exInitialMov (by decide)

/-- C10 (implicit): `reverseSaleMovement` performs no already-reversed
check.  For a caller-owned sale movement whose item exists, a second call on
the same movement id succeeds again: each call creates one more `return`
movement of delta `-M.delta` and increments the item by that amount again,
leaving the item at `prev + 2·(-M.delta)` and the ledger two rows longer
after two calls. -/
theorem claim_C10_reversal_not_idempotent (st : Store) (u mid : Nat)
    (r1 r2 : Option String) (orig : StockMovement) (prev : Item)
    (hnd : (st.items.map (fun it => it.id)).Nodup)
    (hmov : st.movements.find? (fun m => m.id == mid && m.userId == u)
      = some orig)
    (htype : orig.type = MovementType.sale)
    (hitem : st.items.find?
      (fun it => it.id == orig.itemId && it.userId == u) = some prev) :
    (reverseSaleMovement st u mid r1).2 = Except.ok () ∧
    (reverseSaleMovement (reverseSaleMovement st u mid r1).1 u mid r2).2 =
      Except.ok () ∧
    itemQuantity
      (reverseSaleMovement (reverseSaleMovement st u mid r1).1 u mid r2).1
      orig.itemId = some (prev.quantity - 2 * orig.delta) ∧
    (reverseSaleMovement
      (reverseSaleMovement st u mid r1).1 u mid r2).1.movements.length =
      st.movements.length + 2 := by
  have hpred := List.find?_some hitem
  simp only [Bool.and_eq_true, beq_iff_eq] at hpred
  obtain ⟨hpid, hu⟩ := hpred
  have heff1 := reverseSaleMovement_effect st u mid r1 orig prev hnd
    hmov htype hitem
  have hitems1 : (reverseSaleMovement st u mid r1).1.items =
      addToId orig.itemId (-orig.delta) st.items := by rw [heff1]
  have hnd1 : ((reverseSaleMovement st u mid r1).1.items.map
      (fun it => it.id)).Nodup := by
    rw [hitems1, addToId_map_id]; exact hnd
  have hmov1 : (reverseSaleMovement st u mid r1).1.movements.find?
      (fun m => m.id == mid && m.userId == u) = some orig := by
    rw [heff1]
    exact find?_append_left _ _ _ _ hmov
  have hmem1 : ({ prev with quantity := prev.quantity + -orig.delta} : Item)
      ∈ addToId orig.itemId (-orig.delta) st.items := by
    have hmem := addToId_quantity_mem orig.itemId (-orig.delta) st.items
      prev (List.mem_of_find?_eq_some hitem)
    rw [if_pos hpid] at hmem
    exact hmem
  have hitem1 : (reverseSaleMovement st u mid r1).1.items.find?
      (fun it => it.id == orig.itemId && it.userId == u) =
      some { prev with quantity := prev.quantity + -orig.delta } := by
    rw [hitems1]
    exact find?_by_id_user_of_mem _ _ _ _
      (by rw [addToId_map_id]; exact hnd) hmem1 hpid hu
  have heff2 := reverseSaleMovement_effect
    (reverseSaleMovement st u mid r1).1 u mid r2 orig
    { prev with quantity := prev.quantity + -orig.delta }
    hnd1 hmov1 htype hitem1
  refine ⟨by rw [heff1], by rw [heff2], ?_, ?_⟩
  · have hitems2 : (reverseSaleMovement
        (reverseSaleMovement st u mid r1).1 u mid r2).1.items =
        addToId orig.itemId (-orig.delta)
          (addToId orig.itemId (-orig.delta) st.items) := by
      rw [heff2, hitems1]
    show ((reverseSaleMovement
      (reverseSaleMovement st u mid r1).1 u mid r2).1.items.find?
        (fun it => it.id == orig.itemId)).map (fun it => it.quantity) = _
    rw [hitems2]
    rw [find?_id_addToId (addToId orig.itemId (-orig.delta) st.items)
      { prev with quantity := prev.quantity + -orig.delta }
      orig.itemId (-orig.delta)
      (by rw [addToId_map_id]; exact hnd) hmem1 hpid]
    show some (prev.quantity + -orig.delta + -orig.delta) =
      some (prev.quantity - 2 * orig.delta)
    have harith : prev.quantity + -orig.delta + -orig.delta =
        prev.quantity - 2 * orig.delta := by ring
    rw [harith]
  · have hlen2 : (reverseSaleMovement
        (reverseSaleMovement st u mid r1).1 u mid r2).1.movements.length =
        (reverseSaleMovement st u mid r1).1.movements.length + 1 := by
      rw [heff2]
      simp
    have hlen1 : (reverseSaleMovement st u mid r1).1.movements.length =
        st.movements.length + 1 := by
      rw [heff1]
      simp
    omega

/-- Witness for C10: reversing the fixture sale twice succeeds both times;
item 1 ends at 25 = 15 - 2·(-5) and the ledger grows from one row to
three. -/
theorem claim_C10_witness :
    (reverseSaleMovement exRevSt 7 0 none).2 = Except.ok () ∧
    (reverseSaleMovement (reverseSaleMovement exRevSt 7 0 none).1
      7 0 none).2 = Except.ok () ∧
    itemQuantity (reverseSaleMovement
      (reverseSaleMovement exRevSt 7 0 none).1 7 0 none).1
      exSaleMov.itemId =
      some (({ exItemA with quantity := 15 } : Item).quantity -
        2 * exSaleMov.delta) ∧
    (reverseSaleMovement (reverseSaleMovement exRevSt 7 0 none).1
      7 0 none).1.movements.length = exRevSt.movements.length + 2 :=
  claim_C10_reversal_not_idempotent exRevSt 7 0 none none exSaleMov
    { exItemA with quantity := 15 } (by decide) (by rfl) (by decide)
    (by rfl)
